import Mathlib

/-!
Verification of the QMS document-audit core: a shallow embedding of the
document store's type inference, the link extractor, the traceability
engine and the risk-matrix builder, together with theorems settling the
specified properties.

Conventions of the embedding:
* JS `Map` built by repeated `set` is an association list read by
  `mapGet` (last insertion wins).
* JS numbers holding severities/probabilities are `Int`; counts are `Nat`.
* A frontmatter field is `some v` exactly when the raw field is present,
  truthy, and coerces to the number `v`; `none` covers absent or falsy
  fields (the code guards every read with a truthiness test).
* Regex scans over the body are implemented character by character with
  the same matching, capture and resume-position discipline as the
  source patterns (case-insensitive literals, greedy whitespace,
  bracket captures, per-line captures).
-/

namespace QMS

/-- One outbound relationship link: relationship kind and target id. -/
structure Link where
  type : String
  targetId : String
deriving DecidableEq, Repr

/-- Frontmatter fields read by the risk-matrix builder.  Each field is
`some v` iff the raw frontmatter key is present and truthy and its JS
numeric coercion is the integer `v`. -/
structure Frontmatter where
  severity : Option Int := none
  probability : Option Int := none
  residualSeverity : Option Int := none
  residualProbability : Option Int := none
deriving DecidableEq, Repr

/-- One parsed markdown file. -/
structure Document where
  filePath : String
  id : String
  title : String
  status : String
  docType : String
  frontmatter : Frontmatter
  body : String
deriving DecidableEq, Repr

/-- The three derived views over the parsed documents. -/
structure DocumentIndex where
  byId : List (String × Document)
  byPath : List (String × Document)
  byType : List (String × List Document)
deriving Repr

/-- JS `Map.get` over a map built by inserting the pairs in list order:
the value of the last pair whose key matches, if any. -/
def mapGet {α : Type} (m : List (String × α)) (k : String) : Option α :=
  m.foldl (fun acc kv => if kv.1 = k then some kv.2 else acc) none

/-- Configured traceability chain. -/
structure TraceabilityChain where
  source : String
  target : String
  link : String
deriving DecidableEq, Repr

/-- The `traceability` block of the configuration. -/
structure TraceabilitySettings where
  chains : List TraceabilityChain
deriving Repr

/-- The slice of the configuration the modeled validators read. -/
structure Config where
  type : String
  traceability : TraceabilitySettings
deriving Repr

structure ValidationWarning where
  file : String
  rule : String
  message : String
  severity : String
deriving DecidableEq, Repr

structure TraceabilityCoverage where
  chainName : String
  sourceType : String
  targetType : String
  totalSources : Nat
  coveredSources : Nat
  coveragePercent : Nat
deriving DecidableEq, Repr

structure GapEntry where
  documentId : String
  gapType : String
  message : String
  severity : String
deriving DecidableEq, Repr

/-! ### Link extraction (`extractLinks` in the parser)

The source scans the body with eight global case-insensitive regexes.
Six of them have the shape `\*\*Marker:\*\*\s*\[([^\]]+)\]` (the capture
is the content of the bracket immediately following the marker); the
`Verifies:`/`Validates:` two have the shape `\*\*Marker:\*\*\s*(.+)`
(the capture runs to the end of the line).  Each capture is then split
into target ids: every bracketed group `[...]` inside it, or, failing
that, the trimmed capture itself. -/

/-- Whitespace class of the source regexes (`\s`), restricted to ASCII. -/
def isWs (c : Char) : Bool :=
  c = ' ' || c = '\t' || c = '\n' || c = '\r' || c = '\x0b' || c = '\x0c'

/-- Case-insensitive character comparison (regex `i` flag). -/
def ciEq (a b : Char) : Bool := a.toLower == b.toLower

/-- Match the literal `p` case-insensitively at the head of `s`,
returning the rest of `s` on success. -/
def matchCI : List Char → List Char → Option (List Char)
  | [], s => some s
  | _ :: _, [] => none
  | p :: ps, c :: cs => if ciEq p c then matchCI ps cs else none

/-- Try to match a (non-empty) marker starting at the character `c`
followed by `rest`. -/
def tryMarker (marker : List Char) (c : Char) (rest : List Char) : Option (List Char) :=
  match marker with
  | [] => none
  | mh :: mt => if ciEq mh c then matchCI mt rest else none

theorem matchCI_length_le :
    ∀ (p s r : List Char), matchCI p s = some r → r.length ≤ s.length := by
  intro p
  induction p with
  | nil => intro s r h; simp [matchCI] at h; simp [h]
  | cons a as ih =>
    intro s r h
    cases s with
    | nil => simp [matchCI] at h
    | cons c cs =>
      simp only [matchCI] at h
      by_cases hc : ciEq a c
      · simp [hc] at h
        exact Nat.le_succ_of_le (ih cs r h)
      · simp [hc] at h

theorem tryMarker_length_le {marker : List Char} {c : Char} {rest r : List Char}
    (h : tryMarker marker c rest = some r) : r.length ≤ rest.length := by
  cases marker with
  | nil => simp [tryMarker] at h
  | cons mh mt =>
    simp only [tryMarker] at h
    by_cases hc : ciEq mh c
    · simp [hc] at h
      exact matchCI_length_le mt rest r h
    · simp [hc] at h

/-- Worker for `findBracketIds`.  The first argument is the number of
characters still to be skipped before scanning resumes: a regex engine
continues after the end of the previous match, which the structural
one-character-at-a-time recursion emulates by skipping exactly the
remaining length of that match. -/
def findBracketIdsAux : Nat → List Char → List (List Char)
  | _, [] => []
  | k + 1, _ :: rest => findBracketIdsAux k rest
  | 0, c :: rest =>
    if c = '[' then
      if 0 < (rest.takeWhile (fun d => d ≠ ']')).length ∧
          (rest.takeWhile (fun d => d ≠ ']')).length < rest.length then
        rest.takeWhile (fun d => d ≠ ']') ::
          findBracketIdsAux ((rest.takeWhile (fun d => d ≠ ']')).length + 1) rest
      else
        findBracketIdsAux 0 rest
    else
      findBracketIdsAux 0 rest

/-- All maximal non-empty bracketed groups `[...]` of `s`, in order;
each returned list is the content between the brackets (regex
`/\[([^\]]+)\]/g`). -/
def findBracketIds (s : List Char) : List (List Char) := findBracketIdsAux 0 s

/-- JS `String.trim` over a character list (ASCII whitespace). -/
def trimChars (s : List Char) : List Char :=
  ((s.dropWhile isWs).reverse.dropWhile isWs).reverse

/-- Split one captured text into target ids, as the source does: all
bracketed groups with the bracket characters stripped, or the trimmed
capture itself when no bracketed group is present (dropped if empty). -/
def idsFromText (text : List Char) : List (List Char) :=
  let ms := findBracketIds text
  if ms.isEmpty then
    let t := trimChars text
    if t.isEmpty then [] else [t]
  else
    ms.map (fun m => m.filter (fun c => !(c = '[' || c = ']')))

/-- Worker for `scanBracket`; the first argument is the number of
characters to skip before scanning resumes (the tail of the previous
match, as a regex engine resumes at its `lastIndex`).  On a match the
engine consumes the marker, the whitespace run, and the bracket group
`[inner]`; the remaining input is `s3.drop (inner.length + 1)`, so the
skip count is the distance from `rest` down to that remainder. -/
def scanBracketAux (marker : List Char) (ty : String) : Nat → List Char → List Link
  | _, [] => []
  | k + 1, _ :: rest => scanBracketAux marker ty k rest
  | 0, c :: rest =>
    match tryMarker marker c rest with
    | none => scanBracketAux marker ty 0 rest
    | some s1 =>
      match s1.dropWhile isWs with
      | [] => scanBracketAux marker ty 0 rest
      | d :: s3 =>
        if d = '[' then
          if 0 < (s3.takeWhile (fun e => e ≠ ']')).length ∧
              (s3.takeWhile (fun e => e ≠ ']')).length < s3.length then
            (idsFromText (s3.takeWhile (fun e => e ≠ ']'))).map (fun i => ⟨ty, String.mk i⟩)
              ++ scanBracketAux marker ty
                  (rest.length - (s3.length - ((s3.takeWhile (fun e => e ≠ ']')).length + 1)))
                  rest
          else
            scanBracketAux marker ty 0 rest
        else
          scanBracketAux marker ty 0 rest

/-- Scan for a bracket-style pattern `\*\*Marker:\*\*\s*\[([^\]]+)\]`:
at each position, match the marker, skip whitespace, and require an
immediately following non-empty closed bracket group; on success emit
the ids of the capture and resume after the closing bracket. -/
def scanBracket (marker : List Char) (ty : String) (s : List Char) : List Link :=
  scanBracketAux marker ty 0 s

/-- Worker for `scanLine`, with the same skip-count discipline as
`scanBracketAux`: after a match the engine resumes after the captured
line remainder `cap`, i.e. at `(s1.dropWhile isWs).drop cap.length`. -/
def scanLineAux (marker : List Char) (ty : String) : Nat → List Char → List Link
  | _, [] => []
  | k + 1, _ :: rest => scanLineAux marker ty k rest
  | 0, c :: rest =>
    match tryMarker marker c rest with
    | none => scanLineAux marker ty 0 rest
    | some s1 =>
      if 0 < ((s1.dropWhile isWs).takeWhile (fun d => !(d = '\n' || d = '\r'))).length then
        (idsFromText ((s1.dropWhile isWs).takeWhile (fun d => !(d = '\n' || d = '\r')))).map
            (fun i => ⟨ty, String.mk i⟩)
          ++ scanLineAux marker ty
              (rest.length - ((s1.dropWhile isWs).length -
                ((s1.dropWhile isWs).takeWhile (fun d => !(d = '\n' || d = '\r'))).length)) rest
      else
        scanLineAux marker ty 0 rest

/-- Scan for a line-style pattern `\*\*Marker:\*\*\s*(.+)`: at each
position, match the marker, skip whitespace (greedy, may cross line
breaks), capture up to the end of the line, emit the ids of the capture
and resume after it. -/
def scanLine (marker : List Char) (ty : String) (s : List Char) : List Link :=
  scanLineAux marker ty 0 s

/-- `extractLinks`: the ordered concatenation of the eight pattern
scans over the document body, in the source's pattern order. -/
def extractLinks (doc : Document) : List Link :=
  let body := doc.body.toList
  scanBracket "**Derives from:**".toList "derives_from" body
    ++ scanLine "**Verifies:**".toList "verified_by" body
    ++ scanLine "**Validates:**".toList "validated_by" body
    ++ scanBracket "**Implements:**".toList "implements" body
    ++ scanBracket "**Mitigates:**".toList "mitigates" body
    ++ scanBracket "**Analyzes:**".toList "analyzes" body
    ++ scanBracket "**Leads to:**".toList "leads_to" body
    ++ scanBracket "**Results in:**".toList "results_in" body

/-! ### Risk matrix builder (`reports/risk-matrix.ts`) -/

/-- The three acceptability tiers. -/
inductive Acceptability where
  | acceptable
  | review_required
  | unacceptable
deriving DecidableEq, Repr

instance : Inhabited Acceptability := ⟨Acceptability.review_required⟩

/-- Default ISO 14971 acceptability matrix (5x5).
Rows = probability (1-5), Columns = severity (1-5). -/
def DEFAULT_ACCEPTABILITY : List (List Acceptability) :=
  [[.acceptable, .acceptable, .acceptable, .acceptable, .review_required],
   [.acceptable, .acceptable, .acceptable, .review_required, .review_required],
   [.acceptable, .acceptable, .review_required, .review_required, .unacceptable],
   [.acceptable, .review_required, .review_required, .unacceptable, .unacceptable],
   [.review_required, .review_required, .unacceptable, .unacceptable, .unacceptable]]

/-- `getAcceptability`: out-of-range coordinates default to
review-required, otherwise the table entry `[probability-1][severity-1]`
is returned (in range, so the list reads never fall back to a default). -/
def getAcceptability (probability severity : Int) : Acceptability :=
  if probability < 1 || probability > 5 || severity < 1 || severity > 5 then
    .review_required
  else
    (DEFAULT_ACCEPTABILITY.getD (probability - 1).toNat []).getD (severity - 1).toNat default

/-- Match the table-row pattern `\|\s*W1\s*W2...\s*\|\s*(\d)` at the
head of `s`, returning the captured digit.  The words are matched
case-insensitively with optional whitespace before each one. -/
def matchWordsCI : List (List Char) → List Char → Option (List Char)
  | [], s => some s
  | w :: ws, s =>
    match matchCI w (s.dropWhile isWs) with
    | none => none
    | some r => matchWordsCI ws r

def tableRowAt (words : List (List Char)) (s : List Char) : Option Nat :=
  match s with
  | '|' :: r0 =>
    match matchWordsCI words r0 with
    | none => none
    | some r1 =>
      match r1.dropWhile isWs with
      | '|' :: r2 =>
        match r2.dropWhile isWs with
        | d :: _ => if d.isDigit then some (d.toNat - 48) else none
        | [] => none
      | _ => none
  | _ => none

/-- First match of the table-row pattern anywhere in the body
(the source's `body.match(...)` without the global flag). -/
def findTableValue (words : List (List Char)) : List Char → Option Nat
  | [] => none
  | c :: rest =>
    match tableRowAt words (c :: rest) with
    | some d => some d
    | none => findTableValue words rest

/-- Extracted risk assessment values of one risk document. -/
structure RiskValues where
  severity : Int
  probability : Int
  residualSeverity : Option Int
  residualProbability : Option Int
deriving DecidableEq, Repr

/-- `extractRiskValues`: prefer the frontmatter fields when both
`severity` and `probability` are present and truthy; otherwise fall
back to the body-table rows `| Severity | <digit>` etc., requiring both
inherent values; otherwise yield nothing. -/
def extractRiskValues (doc : Document) : Option RiskValues :=
  match doc.frontmatter.severity, doc.frontmatter.probability with
  | some s, some p =>
    some { severity := s, probability := p,
           residualSeverity := doc.frontmatter.residualSeverity,
           residualProbability := doc.frontmatter.residualProbability }
  | _, _ =>
    match findTableValue ["Severity".toList] doc.body.toList,
        findTableValue ["Probability".toList] doc.body.toList with
    | some s, some p =>
      some { severity := (s : Int), probability := (p : Int),
             residualSeverity :=
               (findTableValue ["Residual".toList, "Severity".toList] doc.body.toList).map
                 (fun n => (n : Int)),
             residualProbability :=
               (findTableValue ["Residual".toList, "Probability".toList] doc.body.toList).map
                 (fun n => (n : Int)) }
    | _, _ => none

structure RiskEntry where
  id : String
  title : String
  severity : Int
  probability : Int
  residualSeverity : Option Int
  residualProbability : Option Int
  mitigates : List String
  acceptability : Acceptability
deriving DecidableEq, Repr

structure RiskSummary where
  total : Nat
  acceptable : Nat
  reviewRequired : Nat
  unacceptable : Nat
deriving DecidableEq, Repr

structure RiskMatrix where
  inherent : List (List Nat)
  residual : List (List Nat)
  acceptability : List (List Acceptability)
  risks : List RiskEntry
  summary : RiskSummary
deriving DecidableEq, Repr

/-- `createGrid`: a `size × size` grid of zero counts. -/
def createGrid (size : Nat) : List (List Nat) :=
  List.replicate size (List.replicate size 0)

/-- Increment the grid cell at row `p`, column `s`
(the source's `grid[p][s]++`, only ever invoked in range). -/
def incAt (grid : List (List Nat)) (p s : Nat) : List (List Nat) :=
  grid.set p ((grid.getD p []).set s ((grid.getD p []).getD s 0 + 1))

/-- Mutable loop state of `buildRiskMatrix`. -/
structure BuildState where
  inherent : List (List Nat)
  residual : List (List Nat)
  risks : List RiskEntry
  acceptable : Nat
  reviewRequired : Nat
  unacceptable : Nat
deriving Repr

/-- One iteration of the `buildRiskMatrix` loop over a risk document. -/
def processDoc (gridSize : Nat) (st : BuildState) (doc : Document) : BuildState :=
  match extractRiskValues doc with
  | none => st
  | some v =>
    let inherent :=
      if 1 ≤ v.probability ∧ v.probability ≤ (gridSize : Int) ∧
          1 ≤ v.severity ∧ v.severity ≤ (gridSize : Int) then
        incAt st.inherent (v.probability - 1).toNat (v.severity - 1).toNat
      else st.inherent
    let resSev := v.residualSeverity.getD v.severity
    let resProb := v.residualProbability.getD v.probability
    let residual :=
      if 1 ≤ resProb ∧ resProb ≤ (gridSize : Int) ∧ 1 ≤ resSev ∧ resSev ≤ (gridSize : Int) then
        incAt st.residual (resProb - 1).toNat (resSev - 1).toNat
      else st.residual
    let acceptabilityStatus := getAcceptability resProb resSev
    let counts : Nat × Nat × Nat :=
      match acceptabilityStatus with
      | .acceptable => (st.acceptable + 1, st.reviewRequired, st.unacceptable)
      | .review_required => (st.acceptable, st.reviewRequired + 1, st.unacceptable)
      | .unacceptable => (st.acceptable, st.reviewRequired, st.unacceptable + 1)
    let mitigates := ((extractLinks doc).filter (fun l => l.type == "mitigates")).map
      (fun l => l.targetId)
    { inherent := inherent
      residual := residual
      risks := st.risks ++
        [{ id := doc.id, title := doc.title,
           severity := v.severity, probability := v.probability,
           residualSeverity := v.residualSeverity,
           residualProbability := v.residualProbability,
           mitigates := mitigates, acceptability := acceptabilityStatus }]
      acceptable := counts.1
      reviewRequired := counts.2.1
      unacceptable := counts.2.2 }

/-- `buildRiskMatrix`: nothing when the index has no risk-typed
documents, otherwise the aggregation of all risk documents. -/
def buildRiskMatrix (index : DocumentIndex) (gridSize : Nat := 5) : Option RiskMatrix :=
  let riskDocs := (mapGet index.byType "risk").getD []
  if riskDocs.length = 0 then none
  else
    let st := riskDocs.foldl (processDoc gridSize)
      { inherent := createGrid gridSize, residual := createGrid gridSize,
        risks := [], acceptable := 0, reviewRequired := 0, unacceptable := 0 }
    some { inherent := st.inherent, residual := st.residual,
           acceptability := DEFAULT_ACCEPTABILITY, risks := st.risks,
           summary := { total := st.risks.length, acceptable := st.acceptable,
                        reviewRequired := st.reviewRequired,
                        unacceptable := st.unacceptable } }

/-! ### Traceability engine (`validators/traceability.ts`) -/

/-- Per-document link lookup built at the start of `validateTraceability`. -/
def buildDocLinks (documents : List Document) : List (String × List Link) :=
  documents.map (fun d => (d.id, extractLinks d))

/-- The outbound-link test of the per-source loop: for a `verified_by`
chain an outbound `verified_by` or `validated_by` link counts, for all
other chains only a link of the chain's own kind counts. -/
def hasRequiredLink (chainLink : String) (links : List Link) : Bool :=
  links.any (fun l =>
    if chainLink = "verified_by" then l.type == "verified_by" || l.type == "validated_by"
    else l.type == chainLink)

/-- The reverse check of the `verified_by` branch: some target-type
document has an outbound `verified_by`/`validated_by` link whose target
id is the source document's id. -/
def reverseCovered (docLinks : List (String × List Link)) (targetDocs : List Document)
    (sourceId : String) : Bool :=
  targetDocs.any (fun targetDoc =>
    ((mapGet docLinks targetDoc.id).getD []).any (fun l =>
      (l.type == "verified_by" || l.type == "validated_by") && l.targetId == sourceId))

/-- Whether one source document counts as covered for a chain. -/
def isCovered (chain : TraceabilityChain) (index : DocumentIndex)
    (docLinks : List (String × List Link)) (sourceDoc : Document) : Bool :=
  hasRequiredLink chain.link ((mapGet docLinks sourceDoc.id).getD [])
    || (chain.link == "verified_by"
        && reverseCovered docLinks ((mapGet index.byType chain.target).getD []) sourceDoc.id)

/-- The fixed relationship-kind → rule-name table, defaulting to the
generic missing-link rule. -/
def ruleFor (chainLink : String) : String :=
  if chainLink = "derives_from" then "traceability/requirement-derivation"
  else if chainLink = "verified_by" then "traceability/test-coverage"
  else if chainLink = "mitigates" then "traceability/risk-mitigation"
  else if chainLink = "implements" then "traceability/design-coverage"
  else "traceability/missing-link"

/-- Warning emitted for an uncovered source document. -/
def chainWarning (chain : TraceabilityChain) (sourceDoc : Document) : ValidationWarning :=
  { file := sourceDoc.filePath
    rule := ruleFor chain.link
    message := sourceDoc.id ++ " (" ++ chain.source ++ ") has no \"" ++ chain.link ++
      "\" link to a " ++ chain.target
    severity := "warning" }

/-- Gap entry emitted for an uncovered source document. -/
def chainGap (chain : TraceabilityChain) (sourceDoc : Document) : GapEntry :=
  { documentId := sourceDoc.id
    gapType := "missing_" ++ chain.link
    message := "No \"" ++ chain.link ++ "\" link to " ++ chain.target
    severity := "warning" }

/-- The per-chain source loop: covered count plus the warnings and gaps
of the uncovered source documents, in source order. -/
def processChain (index : DocumentIndex) (docLinks : List (String × List Link))
    (chain : TraceabilityChain) : Nat × List ValidationWarning × List GapEntry :=
  ((mapGet index.byType chain.source).getD []).foldl
    (fun acc d =>
      if isCovered chain index docLinks d then (acc.1 + 1, acc.2.1, acc.2.2)
      else (acc.1, acc.2.1 ++ [chainWarning chain d], acc.2.2 ++ [chainGap chain d]))
    (0, [], [])

/-! #### IEEE-754 binary64 model for the coverage percentage

The source computes `Math.round((coveredCount / sourceDocs.length) * 100)`
in double precision.  The computation is modeled exactly: the quotient
and the product are each rounded to the nearest binary64 value (ties to
even, with the subnormal grid below `2^-1022` and no overflow in the
range reachable here), represented as an exact significand/exponent
pair, and `Math.round` takes the nearest integer with ties toward +∞.
Everything is integer arithmetic so that concrete runs evaluate. -/

/-- `⌊log₂ n⌋` by structural recursion (fuel is the number itself). -/
def log2fuel : Nat → Nat → Nat
  | 0, _ => 0
  | f + 1, n => if 2 ≤ n then log2fuel f (n / 2) + 1 else 0

def natLog2 (n : Nat) : Nat := log2fuel n n

/-- `⌊log₂ (c / t)⌋` for positive naturals: the candidate
`⌊log₂ c⌋ - ⌊log₂ t⌋` is correct or one too high, so one comparison
(`2^e ≤ c/t`, cleared of denominators) settles it. -/
def floorLog2Pair (c t : ℕ) : ℤ :=
  if t * 2 ^ (((natLog2 c : ℤ) - (natLog2 t : ℤ)).toNat) ≤
      c * 2 ^ ((-((natLog2 c : ℤ) - (natLog2 t : ℤ))).toNat) then
    (natLog2 c : ℤ) - (natLog2 t : ℤ)
  else
    (natLog2 c : ℤ) - (natLog2 t : ℤ) - 1

/-- Round the rational `N / D` to the nearest integer, ties to even. -/
def rneND (N D : ℕ) : ℕ :=
  if 2 * (N % D) < D then N / D
  else if D < 2 * (N % D) then N / D + 1
  else if N / D % 2 = 0 then N / D else N / D + 1

/-- The binary64 quotient `c / t` as an exact significand/exponent pair
`(m, e)` of value `m * 2^e`: the quotient is scaled into `[2^52, 2^53)`
(or onto the fixed `2^-1074` grid once the exponent falls below the
normal range) and rounded to nearest, ties to even. -/
def fpDiv (c t : ℕ) : ℕ × ℤ :=
  if c = 0 then (0, 0) else
    (rneND (c * 2 ^ (((52 : ℤ) - max (floorLog2Pair c t) (-1022)).toNat))
        (t * 2 ^ ((max (floorLog2Pair c t) (-1022) - (52 : ℤ)).toNat)),
     max (floorLog2Pair c t) (-1022) - 52)

/-- Round the exact value `M * 2^E` to the nearest binary64 value
(ties to even), as a significand/exponent pair. -/
def fpRound (M : ℕ) (E : ℤ) : ℕ × ℤ :=
  if M = 0 then (0, 0) else
    (rneND (M * 2 ^ ((E - max ((natLog2 M : ℤ) + E - 52) (-1074)).toNat))
        (2 ^ ((max ((natLog2 M : ℤ) + E - 52) (-1074) - E).toNat)),
     max ((natLog2 M : ℤ) + E - 52) (-1074))

/-- `Math.round` of the nonnegative double `p.1 * 2^p.2`: the nearest
integer, ties toward +∞ (`⌊x + 1/2⌋`). -/
def mathRoundFp (p : ℕ × ℤ) : ℕ :=
  if 0 ≤ p.2 then p.1 * 2 ^ p.2.toNat
  else (2 * p.1 + 2 ^ (-p.2).toNat) / 2 ^ ((-p.2).toNat + 1)

/-- `Math.round((covered / total) * 100)` as the source computes it: the
double quotient, the double product with 100, then `Math.round`; the
source's zero-source guard returns 100. -/
def coveragePercentOf (covered total : Nat) : Nat :=
  if 0 < total then
    mathRoundFp (fpRound (100 * (fpDiv covered total).1) (fpDiv covered total).2)
  else 100

/-- JS `String.split(sep)` over a character list: the (possibly empty)
segments between occurrences of the separator; the empty string splits
into one empty segment. -/
def splitOnChar (sep : Char) : List Char → List (List Char)
  | [] => [[]]
  | c :: rest =>
    if c = sep then [] :: splitOnChar sep rest
    else
      match splitOnChar sep rest with
      | [] => [[c]]
      | w :: ws => (c :: w) :: ws

/-- Capitalize the first character of a word
(JS `w.charAt(0).toUpperCase() + w.slice(1)`). -/
def capitalizeChars : List Char → List Char
  | [] => []
  | c :: cs => c.toUpper :: cs

/-- JS `Array.join(' ')`. -/
def joinSpace : List (List Char) → List Char
  | [] => []
  | [w] => w
  | w :: ws => w ++ ' ' :: joinSpace ws

/-- `formatTypeName`: split on underscores, capitalize each word, join
with spaces. -/
def formatTypeName (t : String) : String :=
  String.mk (joinSpace ((splitOnChar '_' t.toList).map capitalizeChars))

/-- The warning/gap contribution of one risk document in
`validateHazardChains`: follow the risk's first `analyzes` link to an
indexed hazard, then the hazard's first `leads_to` link to an indexed
situation, then the situation's first `results_in` link; each missing
hop yields one warning and one gap, unresolved targets yield nothing. -/
def hazardChainOut (index : DocumentIndex) (docLinks : List (String × List Link))
    (risk : Document) : List ValidationWarning × List GapEntry :=
  match ((mapGet docLinks risk.id).getD []).find? (fun l => l.type == "analyzes") with
  | none => ([], [])
  | some analyzesLink =>
    match mapGet index.byId analyzesLink.targetId with
    | none => ([], [])
    | some hazardDoc =>
      match ((mapGet docLinks analyzesLink.targetId).getD []).find?
          (fun l => l.type == "leads_to") with
      | none =>
        ([{ file := hazardDoc.filePath
            rule := "traceability/hazard-chain"
            message := "Hazard " ++ analyzesLink.targetId ++
              " has no \"leads_to\" hazardous situation"
            severity := "warning" }],
         [{ documentId := analyzesLink.targetId
            gapType := "hazard_no_situation"
            message := "Hazard has no leads_to link"
            severity := "warning" }])
      | some leadsTo =>
        match mapGet index.byId leadsTo.targetId with
        | none => ([], [])
        | some situationDoc =>
          match ((mapGet docLinks leadsTo.targetId).getD []).find?
              (fun l => l.type == "results_in") with
          | none =>
            ([{ file := situationDoc.filePath
                rule := "traceability/hazard-chain"
                message := "Hazardous situation " ++ leadsTo.targetId ++
                  " has no \"results_in\" harm"
                severity := "warning" }],
             [{ documentId := leadsTo.targetId
                gapType := "situation_no_harm"
                message := "Situation has no results_in link"
                severity := "warning" }])
          | some _ => ([], [])

/-- `validateHazardChains`: the concatenated contributions of all
risk-typed documents, in index order. -/
def validateHazardChains (index : DocumentIndex) (docLinks : List (String × List Link)) :
    List ValidationWarning × List GapEntry :=
  ((mapGet index.byType "risk").getD []).foldl
    (fun acc r =>
      let out := hazardChainOut index docLinks r
      (acc.1 ++ out.1, acc.2 ++ out.2))
    ([], [])

/-- The coverage record produced for one chain. -/
def chainCoverage (index : DocumentIndex) (docLinks : List (String × List Link))
    (chain : TraceabilityChain) : TraceabilityCoverage :=
  { chainName := formatTypeName chain.source ++ " → " ++ formatTypeName chain.target
    sourceType := chain.source
    targetType := chain.target
    totalSources := ((mapGet index.byType chain.source).getD []).length
    coveredSources := (processChain index docLinks chain).1
    coveragePercent := coveragePercentOf (processChain index docLinks chain).1
      ((mapGet index.byType chain.source).getD []).length }

/-- `validateTraceability`: early exit for non-device repositories,
otherwise per-chain evaluation followed by the fixed hazard-chain
evaluation (whose warnings and gaps are appended after the chains'). -/
def validateTraceability (documents : List Document) (index : DocumentIndex)
    (config : Config) :
    List ValidationWarning × List TraceabilityCoverage × List GapEntry :=
  if config.type ≠ "device" then ([], [], [])
  else
    let docLinks := buildDocLinks documents
    let chainsOut := config.traceability.chains.foldl
      (fun acc chain =>
        let r := processChain index docLinks chain
        (acc.1 ++ r.2.1, acc.2.1 ++ [chainCoverage index docLinks chain], acc.2.2 ++ r.2.2))
      ([], [], [])
    let hz := validateHazardChains index docLinks
    (chainsOut.1 ++ hz.1, chainsOut.2.1, chainsOut.2.2 ++ hz.2)

/-! ### Document type inference (parser) -/

/-- The directory-name → document-type object literal (`DIR_TYPE_MAP`). -/
def DIR_TYPE_PAIRS : List (String × String) :=
  [("user-needs", "user_need"),
   ("product-requirements", "product_requirement"),
   ("software-requirements", "software_requirement"),
   ("architecture", "architecture"),
   ("design", "detailed_design"),
   ("test", "test_case"),
   ("risk", "risk"),
   ("sops", "sop"),
   ("policies", "policy"),
   ("work-instructions", "work_instruction"),
   ("external-reports", "external_report"),
   ("harms", "harm"),
   ("situations", "hazardous_situation"),
   ("software", "risk"),
   ("usability", "risk"),
   ("security", "risk")]

/-- Property lookup on the directory→type object. -/
def DIR_TYPE_MAP (dir : String) : Option String :=
  (DIR_TYPE_PAIRS.find? (fun p => p.1 == dir)).map (fun p => p.2)

/-- The downward directory walk of `inferDocType`: try the deepest
containing directory first. -/
def walkDirs : List String → Option String
  | [] => none
  | dir :: above =>
    match DIR_TYPE_MAP dir with
    | some t => some t
    | none => walkDirs above

/-- `inferDocType`: split the path on `/`, walk the containing
directories from deepest to shallowest, falling back to `unknown`. -/
def inferDocType (filePath : String) : String :=
  (walkDirs ((splitOnChar '/' filePath.toList).map String.mk).dropLast.reverse).getD "unknown"

/-- The id-prefix → document-type object literal of `inferTypeFromId`. -/
def PREFIX_TYPE_PAIRS : List (String × String) :=
  [("UN", "user_need"),
   ("PRS", "product_requirement"),
   ("SRS", "software_requirement"),
   ("SDD", "detailed_design"),
   ("HLD", "architecture"),
   ("TC", "test_case"),
   ("RISK", "risk"),
   ("HAZ", "hazard"),
   ("HS", "hazardous_situation"),
   ("HARM", "harm"),
   ("SOP", "sop"),
   ("POL", "policy"),
   ("WI", "work_instruction"),
   ("AUD", "external_report"),
   ("PT", "external_report")]

/-- Property lookup on the id-prefix→type object. -/
def prefixTypeMap (p : String) : Option String :=
  (PREFIX_TYPE_PAIRS.find? (fun q => q.1 == p)).map (fun q => q.2)

/-- `inferTypeFromId`: the uppercased segment of the id before the
first `-` (JS `id.split('-')[0].toUpperCase()`), looked up in the fixed
id-prefix table. -/
def inferTypeFromId (id : String) : String :=
  (prefixTypeMap (String.mk ((id.toList.takeWhile (fun c => c ≠ '-')).map Char.toUpper))).getD
    "unknown"

/-- The `docType` computed by `parseDocument`: directory inference
first, id-prefix inference only when the former is `unknown`.  The
declared frontmatter is not an input. -/
def docTypeOf (filePath id : String) : String :=
  if inferDocType filePath = "unknown" then inferTypeFromId id else inferDocType filePath

/-! ### Spec-side definitions and claim theorems -/

/-- JS `Math.round` on the exact rationals, for the nonnegative
arguments that arise in coverage computation (round half up). -/
def mathRound (q : ℚ) : ℕ := ⌊q + 1 / 2⌋₊

/-- The RiskEntry that `processDoc` records for a document with
extracted values `v`. -/
def mkRiskEntry (doc : Document) (v : RiskValues) : RiskEntry :=
  { id := doc.id, title := doc.title,
    severity := v.severity, probability := v.probability,
    residualSeverity := v.residualSeverity,
    residualProbability := v.residualProbability,
    mitigates := ((extractLinks doc).filter (fun l => l.type == "mitigates")).map
      (fun l => l.targetId),
    acceptability := getAcceptability (v.residualProbability.getD v.probability)
      (v.residualSeverity.getD v.severity) }

theorem processDoc_risks {doc : Document} {v : RiskValues}
    (h : extractRiskValues doc = some v) (gridSize : Nat) (st : BuildState) :
    (processDoc gridSize st doc).risks = st.risks ++ [mkRiskEntry doc v] := by
  simp only [processDoc, h, mkRiskEntry]

/-- C1: for every risk document that contributes a RiskEntry, the
computed acceptability tier equals the fixed 5×5 lookup table entry at
`[residualProbability-1][residualSeverity-1]` (residual values default
to the inherent ones); out-of-range coordinates always classify as
review-required; residual severity 4 with probability 1 is acceptable. -/
theorem C1_acceptability_table :
    (∀ (gridSize : Nat) (st : BuildState) (doc : Document) (v : RiskValues),
        extractRiskValues doc = some v →
        ∃ e : RiskEntry, (processDoc gridSize st doc).risks = st.risks ++ [e] ∧
          e.acceptability =
            getAcceptability (v.residualProbability.getD v.probability)
              (v.residualSeverity.getD v.severity)) ∧
    (∀ p s : Int, 1 ≤ p → p ≤ 5 → 1 ≤ s → s ≤ 5 →
        getAcceptability p s =
          (DEFAULT_ACCEPTABILITY.getD (p - 1).toNat []).getD (s - 1).toNat default) ∧
    (∀ p s : Int, p < 1 ∨ 5 < p ∨ s < 1 ∨ 5 < s →
        getAcceptability p s = .review_required) ∧
    getAcceptability 1 4 = .acceptable := by
  refine ⟨?_, ?_, ?_, by decide⟩
  · intro gridSize st doc v h
    exact ⟨mkRiskEntry doc v, processDoc_risks h gridSize st, rfl⟩
  · intro p s h1 h2 h3 h4
    have hc : (p < 1 || p > 5 || s < 1 || s > 5) = false := by
      simp only [Bool.or_eq_false_iff, decide_eq_false_iff_not, not_lt]
      omega
    simp [getAcceptability, hc]
  · intro p s h
    have hc : (p < 1 || p > 5 || s < 1 || s > 5) = true := by
      simp only [Bool.or_eq_true, decide_eq_true_eq]
      omega
    simp [getAcceptability, hc]

/-- Witness for the hypotheses of `C1_acceptability_table`. -/
theorem C1_acceptability_table_witness :
    (∃ e : RiskEntry,
        (processDoc 5
          { inherent := createGrid 5, residual := createGrid 5, risks := [],
            acceptable := 0, reviewRequired := 0, unacceptable := 0 }
          { filePath := "risk/R-1.md", id := "R-1", title := "r", status := "draft",
            docType := "risk",
            frontmatter := { severity := some 4, probability := some 3,
                             residualSeverity := some 4, residualProbability := some 1 },
            body := "" }).risks = [] ++ [e] ∧
      e.acceptability = getAcceptability ((some (1 : Int)).getD 3) ((some (4 : Int)).getD 4)) ∧
    getAcceptability 2 7 = .review_required ∧
    getAcceptability 3 3 =
      (DEFAULT_ACCEPTABILITY.getD ((3 : Int) - 1).toNat []).getD ((3 : Int) - 1).toNat default := by
  refine ⟨?_, ?_, ?_⟩
  · exact C1_acceptability_table.1 5 _ _
      { severity := 4, probability := 3, residualSeverity := some 4,
        residualProbability := some 1 } (by decide)
  · exact C1_acceptability_table.2.2.1 2 7 (by omega)
  · exact C1_acceptability_table.2.1 3 3 (by omega) (by omega) (by omega) (by omega)



/-! ### Binary64 rounding analysis (C5) -/

/-- Exact rational value of a significand/exponent pair. -/
def fpVal (p : ℕ × ℤ) : ℚ := (p.1 : ℚ) * (2 : ℚ) ^ p.2

theorem log2fuel_spec : ∀ (f n : ℕ), 1 ≤ n → n ≤ f →
    2 ^ log2fuel f n ≤ n ∧ n < 2 ^ (log2fuel f n + 1) := by
  intro f
  induction f with
  | zero => intro n h1 h2; omega
  | succ f ih =>
    intro n h1 h2
    by_cases h : 2 ≤ n
    · have hdiv := Nat.div_add_mod n 2
      have hmod : n % 2 < 2 := Nat.mod_lt n (by omega)
      have hlt : n / 2 < n := Nat.div_lt_self (by omega) (by omega)
      have hrec := ih (n / 2) (by omega) (by omega)
      simp only [log2fuel, if_pos h]
      rw [pow_succ, pow_succ] at *
      omega
    · simp only [log2fuel, if_neg h]
      omega

theorem natLog2_spec (n : ℕ) (hn : 1 ≤ n) :
    2 ^ natLog2 n ≤ n ∧ n < 2 ^ (natLog2 n + 1) :=
  log2fuel_spec n n hn le_rfl

theorem zpow_toNat_split (e : ℤ) :
    (2 : ℚ) ^ e * (2 : ℚ) ^ ((-e).toNat) = (2 : ℚ) ^ e.toNat := by
  rw [← zpow_natCast (2 : ℚ) (-e).toNat, ← zpow_natCast (2 : ℚ) e.toNat,
    ← zpow_add₀ (two_ne_zero)]
  congr 1
  omega

theorem rneND_bounds (N D : ℕ) (hD : 0 < D) :
    (N : ℚ) / D - 1 / 2 ≤ (rneND N D : ℚ) ∧ (rneND N D : ℚ) ≤ (N : ℚ) / D + 1 / 2 := by
  have hmod := Nat.div_add_mod N D
  have hlt : N % D < D := Nat.mod_lt N hD
  have hDq : (0 : ℚ) < (D : ℚ) := by exact_mod_cast hD
  have hDne : (D : ℚ) ≠ 0 := ne_of_gt hDq
  have hcast : (D : ℚ) * ((N / D : ℕ) : ℚ) + ((N % D : ℕ) : ℚ) = (N : ℚ) := by
    exact_mod_cast hmod
  have hval : (N : ℚ) / D = ((N / D : ℕ) : ℚ) + ((N % D : ℕ) : ℚ) / D := by
    rw [← hcast]
    field_simp
    ring
  have hr0 : (0 : ℚ) ≤ ((N % D : ℕ) : ℚ) / D := by positivity
  have hr1 : ((N % D : ℕ) : ℚ) / D < 1 := by
    rw [div_lt_one hDq]
    exact_mod_cast hlt
  unfold rneND
  by_cases h1 : 2 * (N % D) < D
  · have hhalf : ((N % D : ℕ) : ℚ) / D ≤ 1 / 2 := by
      rw [div_le_div_iff₀ hDq (by norm_num)]
      have : (2 : ℚ) * (N % D : ℕ) ≤ (D : ℚ) := by exact_mod_cast le_of_lt h1
      linarith
    rw [if_pos h1]
    constructor <;> [skip; skip] <;> rw [hval] <;> linarith
  · by_cases h2 : D < 2 * (N % D)
    · have hhalf : (1 : ℚ) / 2 ≤ ((N % D : ℕ) : ℚ) / D := by
        rw [div_le_div_iff₀ (by norm_num) hDq]
        have : (D : ℚ) ≤ (2 : ℚ) * (N % D : ℕ) := by exact_mod_cast le_of_lt h2
        linarith
      rw [if_neg h1, if_pos h2]
      push_cast
      constructor <;> rw [hval] <;> linarith
    · have heq : 2 * (N % D) = D := by omega
      have hhalf : ((N % D : ℕ) : ℚ) / D = 1 / 2 := by
        rw [div_eq_div_iff hDne (by norm_num)]
        have h2r : (2 : ℚ) * ((N % D : ℕ) : ℚ) = (D : ℚ) := by exact_mod_cast heq
        linarith
      rw [if_neg h1, if_neg h2]
      by_cases h3 : N / D % 2 = 0
      · rw [if_pos h3]
        constructor <;> rw [hval, hhalf] <;> linarith
      · rw [if_neg h3]
        push_cast
        constructor <;> rw [hval, hhalf] <;> linarith


theorem floorLog2Pair_spec (c t : ℕ) (hc : 0 < c) (ht : 0 < t) :
    (2 : ℚ) ^ floorLog2Pair c t ≤ (c : ℚ) / t ∧
      (c : ℚ) / t < (2 : ℚ) ^ (floorLog2Pair c t + 1) := by
  have hcq : (0 : ℚ) < (c : ℚ) := by exact_mod_cast hc
  have htq : (0 : ℚ) < (t : ℚ) := by exact_mod_cast ht
  obtain ⟨hc1, hc2⟩ := natLog2_spec c hc
  obtain ⟨ht1, ht2⟩ := natLog2_spec t ht
  have hc1q : (2 : ℚ) ^ (natLog2 c) ≤ (c : ℚ) := by exact_mod_cast hc1
  have hc2q : (c : ℚ) < (2 : ℚ) ^ (natLog2 c + 1) := by exact_mod_cast hc2
  have ht1q : (2 : ℚ) ^ (natLog2 t) ≤ (t : ℚ) := by exact_mod_cast ht1
  have ht2q : (t : ℚ) < (2 : ℚ) ^ (natLog2 t + 1) := by exact_mod_cast ht2
  have hiff : ∀ e : ℤ, (t * 2 ^ e.toNat ≤ c * 2 ^ (-e).toNat) ↔ (2 : ℚ) ^ e ≤ (c : ℚ) / t := by
    intro e
    have hK : (0 : ℚ) < (2 : ℚ) ^ ((-e).toNat) := by positivity
    rw [← Nat.cast_le (α := ℚ)]
    push_cast
    rw [← zpow_toNat_split e, le_div_iff₀ htq]
    rw [show (t : ℚ) * ((2 : ℚ) ^ e * (2 : ℚ) ^ ((-e).toNat)) =
      ((2 : ℚ) ^ e * (t : ℚ)) * (2 : ℚ) ^ ((-e).toNat) from by ring]
    rw [mul_le_mul_right hK]
  have hzc : ((2 : ℚ) ^ (natLog2 c) : ℚ) = (2 : ℚ) ^ ((natLog2 c : ℤ)) := by
    rw [zpow_natCast]
  have hzt : ((2 : ℚ) ^ (natLog2 t) : ℚ) = (2 : ℚ) ^ ((natLog2 t : ℤ)) := by
    rw [zpow_natCast]
  have hupper : (c : ℚ) / t < (2 : ℚ) ^ ((natLog2 c : ℤ) - (natLog2 t : ℤ) + 1) := by
    rw [div_lt_iff₀ htq]
    calc (c : ℚ) < (2 : ℚ) ^ (natLog2 c + 1) := hc2q
      _ = (2 : ℚ) ^ ((natLog2 c : ℤ) + 1) := by rw [← zpow_natCast]; push_cast; ring_nf
      _ = (2 : ℚ) ^ ((natLog2 c : ℤ) - (natLog2 t : ℤ) + 1) * (2 : ℚ) ^ ((natLog2 t : ℤ)) := by
          rw [← zpow_add₀ (two_ne_zero : (2 : ℚ) ≠ 0)]
          congr 1
          ring
      _ ≤ (2 : ℚ) ^ ((natLog2 c : ℤ) - (natLog2 t : ℤ) + 1) * (t : ℚ) := by
          have hp : (0 : ℚ) < (2 : ℚ) ^ ((natLog2 c : ℤ) - (natLog2 t : ℤ) + 1) := by
            positivity
          rw [← hzt]
          exact mul_le_mul_of_nonneg_left ht1q (le_of_lt hp)
  have hlower : (2 : ℚ) ^ ((natLog2 c : ℤ) - (natLog2 t : ℤ) - 1) ≤ (c : ℚ) / t := by
    rw [le_div_iff₀ htq]
    calc (2 : ℚ) ^ ((natLog2 c : ℤ) - (natLog2 t : ℤ) - 1) * (t : ℚ)
        ≤ (2 : ℚ) ^ ((natLog2 c : ℤ) - (natLog2 t : ℤ) - 1) * (2 : ℚ) ^ ((natLog2 t : ℤ) + 1) := by
          have hp : (0 : ℚ) < (2 : ℚ) ^ ((natLog2 c : ℤ) - (natLog2 t : ℤ) - 1) := by
            positivity
          refine mul_le_mul_of_nonneg_left ?_ (le_of_lt hp)
          calc (t : ℚ) ≤ (2 : ℚ) ^ (natLog2 t + 1) := le_of_lt ht2q
            _ = (2 : ℚ) ^ ((natLog2 t : ℤ) + 1) := by rw [← zpow_natCast]; push_cast; ring_nf
      _ = (2 : ℚ) ^ ((natLog2 c : ℤ)) := by
          rw [← zpow_add₀ (two_ne_zero : (2 : ℚ) ≠ 0)]
          congr 1
          ring
      _ ≤ (c : ℚ) := by rw [← hzc]; exact hc1q
  unfold floorLog2Pair
  by_cases htest : t * 2 ^ (((natLog2 c : ℤ) - (natLog2 t : ℤ)).toNat) ≤
      c * 2 ^ ((-((natLog2 c : ℤ) - (natLog2 t : ℤ))).toNat)
  · rw [if_pos htest]
    exact ⟨(hiff _).mp htest, hupper⟩
  · rw [if_neg htest]
    have hlt : (c : ℚ) / t < (2 : ℚ) ^ ((natLog2 c : ℤ) - (natLog2 t : ℤ)) := by
      by_contra hcon
      exact htest ((hiff _).mpr (le_of_not_lt hcon))
    constructor
    · exact hlower
    · rw [show (natLog2 c : ℤ) - (natLog2 t : ℤ) - 1 + 1 =
        (natLog2 c : ℤ) - (natLog2 t : ℤ) from by ring]
      exact hlt


theorem fpVal_nonneg (p : ℕ × ℤ) : 0 ≤ fpVal p := by
  unfold fpVal
  positivity

theorem fpDiv_err (c t : ℕ) (ht : 0 < t) (hle : c ≤ t) :
    |fpVal (fpDiv c t) - (c : ℚ) / t| ≤ (2 : ℚ) ^ (-(53 : ℤ)) := by
  by_cases hc : c = 0
  · subst hc
    simp [fpDiv, fpVal]
    positivity
  have hc0 : 0 < c := Nat.pos_of_ne_zero hc
  have htq : (0 : ℚ) < (t : ℚ) := by exact_mod_cast ht
  have htne : (t : ℚ) ≠ 0 := ne_of_gt htq
  obtain ⟨hf1, hf2⟩ := floorLog2Pair_spec c t hc0 ht
  have hq1 : (c : ℚ) / t ≤ 1 := by
    rw [div_le_one htq]
    exact_mod_cast hle
  have hfl0 : floorLog2Pair c t ≤ 0 := by
    by_contra hcon
    have h1lt : (1 : ℤ) ≤ floorLog2Pair c t := by omega
    have : (2 : ℚ) ^ (1 : ℤ) ≤ (2 : ℚ) ^ (floorLog2Pair c t) :=
      zpow_le_zpow_right₀ (by norm_num) h1lt
    have h2 : (2 : ℚ) ^ (1 : ℤ) = 2 := by norm_num
    linarith
  set es : ℤ := max (floorLog2Pair c t) (-1022) with hes
  have hes0 : es ≤ 0 := by
    rw [hes]
    omega
  set N : ℕ := c * 2 ^ (((52 : ℤ) - es).toNat) with hN
  set D : ℕ := t * 2 ^ ((es - (52 : ℤ)).toNat) with hD
  have hDpos : 0 < D := by
    rw [hD]
    positivity
  have hfpdiv : fpDiv c t = (rneND N D, es - 52) := by
    rw [fpDiv, if_neg hc]
  have hDq : (0 : ℚ) < (D : ℚ) := by exact_mod_cast hDpos
  have hND : (N : ℚ) / (D : ℚ) = (c : ℚ) / t * (2 : ℚ) ^ ((52 : ℤ) - es) := by
    rw [hN, hD]
    push_cast
    have hsplit := zpow_toNat_split ((52 : ℤ) - es)
    rw [show (es - (52 : ℤ)) = -((52 : ℤ) - es) from by ring]
    rw [← hsplit]
    have h2B : (0 : ℚ) < (2 : ℚ) ^ ((-((52 : ℤ) - es)).toNat) := by positivity
    field_simp
    ring
  obtain ⟨hrne1, hrne2⟩ := rneND_bounds N D hDpos
  have hval : fpVal (fpDiv c t) = (rneND N D : ℚ) * (2 : ℚ) ^ (es - 52) := by
    rw [hfpdiv, fpVal]
  have hcancel : (c : ℚ) / t * (2 : ℚ) ^ ((52 : ℤ) - es) * (2 : ℚ) ^ (es - 52) = (c : ℚ) / t := by
    rw [mul_assoc, ← zpow_add₀ (two_ne_zero : (2 : ℚ) ≠ 0)]
    rw [show ((52 : ℤ) - es) + (es - 52) = 0 from by ring]
    simp
  have hpz : (0 : ℚ) < (2 : ℚ) ^ (es - 52) := by positivity
  have hhalf : (1 : ℚ) / 2 * (2 : ℚ) ^ (es - 52) = (2 : ℚ) ^ (es - 53) := by
    rw [show (es - 53 : ℤ) = (es - 52) + (-1) from by ring,
      zpow_add₀ (two_ne_zero : (2 : ℚ) ≠ 0)]
    norm_num
    ring
  have hbound : |fpVal (fpDiv c t) - (c : ℚ) / t| ≤ (2 : ℚ) ^ (es - 53) := by
    rw [hval, abs_le]
    constructor
    · have := mul_le_mul_of_nonneg_right hrne1 (le_of_lt hpz)
      rw [sub_mul, hND, hcancel] at this
      linarith [hhalf ▸ this]
    · have := mul_le_mul_of_nonneg_right hrne2 (le_of_lt hpz)
      rw [add_mul, hND, hcancel] at this
      linarith [hhalf ▸ this]
  calc |fpVal (fpDiv c t) - (c : ℚ) / t| ≤ (2 : ℚ) ^ (es - 53) := hbound
    _ ≤ (2 : ℚ) ^ (-(53 : ℤ)) := zpow_le_zpow_right₀ (by norm_num) (by omega)

theorem fpRound_err (M : ℕ) (E : ℤ) (hub : (M : ℚ) * (2 : ℚ) ^ E ≤ 128) :
    |fpVal (fpRound M E) - (M : ℚ) * (2 : ℚ) ^ E| ≤ (2 : ℚ) ^ (-(46 : ℤ)) := by
  by_cases hM : M = 0
  · subst hM
    simp [fpRound, fpVal]
    positivity
  have hM0 : 0 < M := Nat.pos_of_ne_zero hM
  obtain ⟨hs1, _⟩ := natLog2_spec M hM0
  have hs1q : (2 : ℚ) ^ ((natLog2 M : ℤ)) ≤ (M : ℚ) := by
    rw [zpow_natCast]
    exact_mod_cast hs1
  have hsE : (natLog2 M : ℤ) + E ≤ 7 := by
    have hEpos : (0 : ℚ) < (2 : ℚ) ^ E := by positivity
    have hle : (2 : ℚ) ^ ((natLog2 M : ℤ) + E) ≤ 128 := by
      rw [zpow_add₀ (two_ne_zero : (2 : ℚ) ≠ 0)]
      calc (2 : ℚ) ^ ((natLog2 M : ℤ)) * (2 : ℚ) ^ E ≤ (M : ℚ) * (2 : ℚ) ^ E :=
            mul_le_mul_of_nonneg_right hs1q (le_of_lt hEpos)
        _ ≤ 128 := hub
    have h128 : (128 : ℚ) = (2 : ℚ) ^ ((7 : ℤ)) := by norm_num
    rw [h128] at hle
    exact (zpow_le_zpow_iff_right₀ (by norm_num)).mp hle
  set g : ℤ := max ((natLog2 M : ℤ) + E - 52) (-1074) with hg
  have hg45 : g ≤ -45 := by
    rw [hg]
    omega
  set N : ℕ := M * 2 ^ ((E - g).toNat) with hN
  set D : ℕ := 2 ^ ((g - E).toNat) with hD
  have hDpos : 0 < D := by
    rw [hD]
    positivity
  have hfpr : fpRound M E = (rneND N D, g) := by
    rw [fpRound, if_neg hM]
  have hND : (N : ℚ) / (D : ℚ) = (M : ℚ) * (2 : ℚ) ^ E * (2 : ℚ) ^ (-g) := by
    rw [hN, hD]
    push_cast
    have hsplit := zpow_toNat_split (E - g)
    rw [show (g - E) = -(E - g) from by ring]
    rw [← hsplit]
    have h2B : (0 : ℚ) < (2 : ℚ) ^ ((-(E - g)).toNat) := by positivity
    rw [show (M : ℚ) * (2 : ℚ) ^ E * (2 : ℚ) ^ (-g) =
      (M : ℚ) * (2 : ℚ) ^ (E + -g) from by
        rw [zpow_add₀ (two_ne_zero : (2 : ℚ) ≠ 0)]; ring]
    rw [show (E + -g : ℤ) = E - g from by ring]
    field_simp
    ring
  obtain ⟨hrne1, hrne2⟩ := rneND_bounds N D hDpos
  have hval : fpVal (fpRound M E) = (rneND N D : ℚ) * (2 : ℚ) ^ g := by
    rw [hfpr, fpVal]
  have hpz : (0 : ℚ) < (2 : ℚ) ^ g := by positivity
  have hcancel : (M : ℚ) * (2 : ℚ) ^ E * (2 : ℚ) ^ (-g) * (2 : ℚ) ^ g =
      (M : ℚ) * (2 : ℚ) ^ E := by
    rw [mul_assoc, ← zpow_add₀ (two_ne_zero : (2 : ℚ) ≠ 0)]
    simp
  have hhalf : (1 : ℚ) / 2 * (2 : ℚ) ^ g = (2 : ℚ) ^ (g - 1) := by
    rw [show (g - 1 : ℤ) = g + (-1) from by ring, zpow_add₀ (two_ne_zero : (2 : ℚ) ≠ 0)]
    norm_num
    ring
  have hbound : |fpVal (fpRound M E) - (M : ℚ) * (2 : ℚ) ^ E| ≤ (2 : ℚ) ^ (g - 1) := by
    rw [hval, abs_le]
    constructor
    · have := mul_le_mul_of_nonneg_right hrne1 (le_of_lt hpz)
      rw [sub_mul, hND, hcancel] at this
      linarith [hhalf ▸ this]
    · have := mul_le_mul_of_nonneg_right hrne2 (le_of_lt hpz)
      rw [add_mul, hND, hcancel] at this
      linarith [hhalf ▸ this]
  calc |fpVal (fpRound M E) - (M : ℚ) * (2 : ℚ) ^ E| ≤ (2 : ℚ) ^ (g - 1) := hbound
    _ ≤ (2 : ℚ) ^ (-(46 : ℤ)) := zpow_le_zpow_right₀ (by norm_num) (by omega)

theorem floor_nat_add_half (n : ℕ) : ⌊(n : ℚ) + 1 / 2⌋₊ = n := by
  rw [Nat.floor_eq_iff (by positivity)]
  constructor
  · linarith
  · linarith

theorem mathRoundFp_eq (p : ℕ × ℤ) : mathRoundFp p = ⌊fpVal p + 1 / 2⌋₊ := by
  rcases p with ⟨m, e⟩
  unfold mathRoundFp fpVal
  by_cases h : 0 ≤ e
  · rw [if_pos h]
    have hz : (2 : ℚ) ^ e = (2 : ℚ) ^ e.toNat := by
      rw [← zpow_natCast]
      congr 1
      omega
    rw [hz,
      show ((m : ℕ) : ℚ) * (2 : ℚ) ^ e.toNat = ((m * 2 ^ e.toNat : ℕ) : ℚ) from by
        push_cast; ring,
      floor_nat_add_half]
  · rw [if_neg h]
    have hval : ((m : ℕ) : ℚ) * (2 : ℚ) ^ e + 1 / 2 =
        ((2 * m + 2 ^ (-e).toNat : ℕ) : ℚ) / ((2 ^ ((-e).toNat + 1) : ℕ) : ℚ) := by
      have hze : (2 : ℚ) ^ e = ((2 : ℚ) ^ (-e).toNat)⁻¹ := by
        rw [← zpow_natCast (2 : ℚ) ((-e).toNat), ← zpow_neg]
        congr 1
        omega
      rw [hze]
      have h2k : (0 : ℚ) < (2 : ℚ) ^ (-e).toNat := by positivity
      push_cast
      field_simp
      ring
    rw [hval, Nat.floor_div_nat, Nat.floor_natCast]

theorem floor_half_close (x y : ℚ) (hx : 0 ≤ x) (hy : 0 ≤ y)
    (h : |x - y| ≤ 1 / 4) :
    ⌊x + 1 / 2⌋₊ ≤ ⌊y + 1 / 2⌋₊ + 1 ∧ ⌊y + 1 / 2⌋₊ ≤ ⌊x + 1 / 2⌋₊ + 1 := by
  rw [abs_le] at h
  constructor
  · have hle : x + 1 / 2 ≤ (y + 1 / 2) + 1 := by linarith [h.2]
    calc ⌊x + 1 / 2⌋₊ ≤ ⌊(y + 1 / 2) + 1⌋₊ := Nat.floor_mono hle
      _ = ⌊y + 1 / 2⌋₊ + 1 := Nat.floor_add_one (by positivity)
  · have hle : y + 1 / 2 ≤ (x + 1 / 2) + 1 := by linarith [h.1]
    calc ⌊y + 1 / 2⌋₊ ≤ ⌊(x + 1 / 2) + 1⌋₊ := Nat.floor_mono hle
      _ = ⌊x + 1 / 2⌋₊ + 1 := Nat.floor_add_one (by positivity)

theorem coveragePercentOf_close (c t : ℕ) (ht : 0 < t) (hle : c ≤ t) :
    coveragePercentOf c t ≤ mathRound ((c : ℚ) / t * 100) + 1 ∧
      mathRound ((c : ℚ) / t * 100) ≤ coveragePercentOf c t + 1 := by
  have htq : (0 : ℚ) < (t : ℚ) := by exact_mod_cast ht
  have herr1 := fpDiv_err c t ht hle
  have hq1 : (c : ℚ) / t ≤ 1 := by
    rw [div_le_one htq]
    exact_mod_cast hle
  have hqnn : (0 : ℚ) ≤ (c : ℚ) / t := by positivity
  have h53 : (2 : ℚ) ^ (-(53 : ℤ)) ≤ 1 / 1024 := by
    calc (2 : ℚ) ^ (-(53 : ℤ)) ≤ (2 : ℚ) ^ (-(10 : ℤ)) :=
          zpow_le_zpow_right₀ (by norm_num) (by omega)
      _ = 1 / 1024 := by norm_num
  have h46 : (2 : ℚ) ^ (-(46 : ℤ)) ≤ 1 / 8 := by
    calc (2 : ℚ) ^ (-(46 : ℤ)) ≤ (2 : ℚ) ^ (-(3 : ℤ)) :=
          zpow_le_zpow_right₀ (by norm_num) (by omega)
      _ = 1 / 8 := by norm_num
  have hub128 : (100 : ℚ) * fpVal (fpDiv c t) ≤ 128 := by
    have h2 := (abs_le.mp herr1).2
    linarith [fpVal_nonneg (fpDiv c t)]
  have hMeq : ((100 * (fpDiv c t).1 : ℕ) : ℚ) * (2 : ℚ) ^ (fpDiv c t).2 =
      100 * fpVal (fpDiv c t) := by
    unfold fpVal
    push_cast
    ring
  have herr2 := fpRound_err (100 * (fpDiv c t).1) (fpDiv c t).2 (by rw [hMeq]; exact hub128)
  rw [hMeq] at herr2
  have hclose :
      |fpVal (fpRound (100 * (fpDiv c t).1) (fpDiv c t).2) - (c : ℚ) / t * 100| ≤ 1 / 4 := by
    have ha := abs_le.mp herr1
    have hb := abs_le.mp herr2
    set A : ℚ := (2 : ℚ) ^ (-(46 : ℤ))
    set B : ℚ := (2 : ℚ) ^ (-(53 : ℤ))
    set F : ℚ := fpVal (fpDiv c t)
    set V : ℚ := fpVal (fpRound (100 * (fpDiv c t).1) (fpDiv c t).2)
    set X : ℚ := (c : ℚ) / t
    clear_value A B F V X
    rw [abs_le]
    constructor
    · linarith [ha.1, hb.1, h46, h53]
    · linarith [ha.2, hb.2, h46, h53]
  have hveq : coveragePercentOf c t =
      ⌊fpVal (fpRound (100 * (fpDiv c t).1) (fpDiv c t).2) + 1 / 2⌋₊ := by
    rw [coveragePercentOf, if_pos ht, mathRoundFp_eq]
  have hmr : mathRound ((c : ℚ) / t * 100) = ⌊(c : ℚ) / t * 100 + 1 / 2⌋₊ := rfl
  obtain ⟨h1, h2⟩ := floor_half_close (fpVal (fpRound (100 * (fpDiv c t).1) (fpDiv c t).2))
    ((c : ℚ) / t * 100) (fpVal_nonneg _) (by positivity) hclose
  rw [hveq, hmr]
  exact ⟨h1, h2⟩


/-- C5 counterexample: with 23 of 40 sources covered the double
computation `Math.round((23 / 40) * 100)` yields 57 (the product is the
double 57.49999999999999), while exact rational rounding of 57.5 yields
58 — the claimed exact-percentage equation fails at a reachable input. -/
theorem C5_counterexample :
    coveragePercentOf 23 40 = 57 ∧ mathRound ((23 : ℚ) / 40 * 100) = 58 := by
  refine ⟨by decide, ?_⟩
  show ⌊(23 : ℚ) / 40 * 100 + 1 / 2⌋₊ = 58
  rw [Nat.floor_eq_iff (by norm_num)]
  norm_num

/-- C5 (corrected): each chain's `coveragePercent` is `Math.round` applied
to the IEEE-754 double evaluation of `(coveredSources / totalSources) * 100`
(quotient rounded to nearest double, then the product with 100 rounded to
nearest double, then round half toward positive infinity on the exact value
of that double) — which stays within one of the exactly rounded percentage
but does not always equal it — and a chain whose source type has no
documents reports 100. -/
theorem C5_float_rounding (index : DocumentIndex)
    (docLinks : List (String × List Link)) (chain : TraceabilityChain)
    (c t : ℕ) (ht : 0 < t) (hle : c ≤ t) :
    (chainCoverage index docLinks chain).coveragePercent =
      coveragePercentOf (chainCoverage index docLinks chain).coveredSources
        (chainCoverage index docLinks chain).totalSources ∧
    ((mapGet index.byType chain.source).getD [] = [] →
      (chainCoverage index docLinks chain).coveragePercent = 100) ∧
    coveragePercentOf c t =
      mathRoundFp (fpRound (100 * (fpDiv c t).1) (fpDiv c t).2) ∧
    coveragePercentOf c t ≤ mathRound ((c : ℚ) / t * 100) + 1 ∧
    mathRound ((c : ℚ) / t * 100) ≤ coveragePercentOf c t + 1 := by
  refine ⟨rfl, ?_, ?_, coveragePercentOf_close c t ht hle⟩
  · intro hnil
    simp [chainCoverage, hnil, coveragePercentOf]
  · rw [coveragePercentOf, if_pos ht]

theorem C5_float_rounding_witness :
    0 < 40 ∧ 23 ≤ 40 ∧
      coveragePercentOf 23 40 ≤ mathRound ((23 : ℚ) / 40 * 100) + 1 ∧
      mathRound ((23 : ℚ) / 40 * 100) ≤ coveragePercentOf 23 40 + 1 :=
  ⟨by decide, by decide,
    (C5_float_rounding ⟨[], [], []⟩ [] ⟨"srs", "test_case", "verified_by"⟩
      23 40 (by decide) (by decide)).2.2.2⟩


/-- C6: the builder yields no matrix exactly when the index has no
risk-typed documents, and a document whose values cannot be extracted
leaves the loop state (grids, entry list, summary counts) unchanged. -/
theorem C6_skip_semantics :
    (∀ (index : DocumentIndex) (gridSize : Nat),
        buildRiskMatrix index gridSize = none ↔ (mapGet index.byType "risk").getD [] = []) ∧
    (∀ (gridSize : Nat) (st : BuildState) (doc : Document),
        extractRiskValues doc = none → processDoc gridSize st doc = st) := by
  constructor
  · intro index gridSize
    simp only [buildRiskMatrix]
    by_cases h : ((mapGet index.byType "risk").getD []).length = 0
    · simp [h, List.length_eq_zero.mp h]
    · simp only [if_neg h]
      constructor
      · intro hc; exact absurd hc (by simp)
      · intro hc; exact absurd (by simp [hc] : _ = 0) h
  · intro gridSize st doc h
    simp [processDoc, h]

/-- Witness for the hypotheses of `C6_skip_semantics`. -/
theorem C6_skip_semantics_witness :
    processDoc 5
      { inherent := createGrid 5, residual := createGrid 5, risks := [],
        acceptable := 0, reviewRequired := 0, unacceptable := 0 }
      { filePath := "risk/R-2.md", id := "R-2", title := "r", status := "draft",
        docType := "risk", frontmatter := {}, body := "no assessment here" } =
      { inherent := createGrid 5, residual := createGrid 5, risks := [],
        acceptable := 0, reviewRequired := 0, unacceptable := 0 } :=
  C6_skip_semantics.2 5 _ _ (by decide)

/-- C9: the modeled `extractLinks`, `validateTraceability` and
`buildRiskMatrix` are deterministic functions of their inputs: two runs
on the same inputs give identical outputs. -/
theorem C9_deterministic :
    (∀ doc : Document, extractLinks doc = extractLinks doc) ∧
    (∀ (documents : List Document) (index : DocumentIndex) (config : Config),
        validateTraceability documents index config =
          validateTraceability documents index config) ∧
    (∀ (index : DocumentIndex) (gridSize : Nat),
        buildRiskMatrix index gridSize = buildRiskMatrix index gridSize) :=
  ⟨fun _ => rfl, fun _ _ _ => rfl, fun _ _ => rfl⟩

/-- C7: inherent and residual grid cells are incremented exactly when
both coordinates lie within `1..gridSize` (the incremented indices then
being in bounds), out-of-range pairs skip the grid update, and in
either case the RiskEntry is recorded and counted in the tier summary. -/
theorem C7_grid_population (gridSize : Nat) (st : BuildState) (doc : Document) (v : RiskValues)
    (hv : extractRiskValues doc = some v) :
    ((1 ≤ v.probability ∧ v.probability ≤ (gridSize : Int) ∧
        1 ≤ v.severity ∧ v.severity ≤ (gridSize : Int)) →
      (processDoc gridSize st doc).inherent =
        incAt st.inherent (v.probability - 1).toNat (v.severity - 1).toNat ∧
      (v.probability - 1).toNat < gridSize ∧ (v.severity - 1).toNat < gridSize) ∧
    (¬ (1 ≤ v.probability ∧ v.probability ≤ (gridSize : Int) ∧
        1 ≤ v.severity ∧ v.severity ≤ (gridSize : Int)) →
      (processDoc gridSize st doc).inherent = st.inherent) ∧
    ((1 ≤ v.residualProbability.getD v.probability ∧
        v.residualProbability.getD v.probability ≤ (gridSize : Int) ∧
        1 ≤ v.residualSeverity.getD v.severity ∧
        v.residualSeverity.getD v.severity ≤ (gridSize : Int)) →
      (processDoc gridSize st doc).residual =
        incAt st.residual (v.residualProbability.getD v.probability - 1).toNat
          (v.residualSeverity.getD v.severity - 1).toNat ∧
      (v.residualProbability.getD v.probability - 1).toNat < gridSize ∧
      (v.residualSeverity.getD v.severity - 1).toNat < gridSize) ∧
    (¬ (1 ≤ v.residualProbability.getD v.probability ∧
        v.residualProbability.getD v.probability ≤ (gridSize : Int) ∧
        1 ≤ v.residualSeverity.getD v.severity ∧
        v.residualSeverity.getD v.severity ≤ (gridSize : Int)) →
      (processDoc gridSize st doc).residual = st.residual) ∧
    (processDoc gridSize st doc).risks = st.risks ++ [mkRiskEntry doc v] ∧
    (processDoc gridSize st doc).acceptable + (processDoc gridSize st doc).reviewRequired +
        (processDoc gridSize st doc).unacceptable =
      st.acceptable + st.reviewRequired + st.unacceptable + 1 := by
  refine ⟨?_, ?_, ?_, ?_, processDoc_risks hv gridSize st, ?_⟩
  · intro h
    refine ⟨?_, by omega, by omega⟩
    simp only [processDoc, hv, if_pos h]
  · intro h
    simp only [processDoc, hv, if_neg h]
  · intro h
    refine ⟨?_, by omega, by omega⟩
    simp only [processDoc, hv, if_pos h]
  · intro h
    simp only [processDoc, hv, if_neg h]
  · simp only [processDoc, hv]
    rcases hacc : getAcceptability (v.residualProbability.getD v.probability)
        (v.residualSeverity.getD v.severity) with _ | _ | _ <;>
      simp [hacc] <;> omega

/-- Witness for the hypotheses of `C7_grid_population`. -/
theorem C7_grid_population_witness :
    (processDoc 5
        { inherent := createGrid 5, residual := createGrid 5, risks := [],
          acceptable := 0, reviewRequired := 0, unacceptable := 0 }
        { filePath := "risk/R-3.md", id := "R-3", title := "r", status := "draft",
          docType := "risk",
          frontmatter := { severity := some 4, probability := some 3,
                           residualSeverity := some 9, residualProbability := some 1 },
          body := "" }).inherent =
      incAt (createGrid 5) ((3 : Int) - 1).toNat ((4 : Int) - 1).toNat ∧
    (processDoc 5
        { inherent := createGrid 5, residual := createGrid 5, risks := [],
          acceptable := 0, reviewRequired := 0, unacceptable := 0 }
        { filePath := "risk/R-3.md", id := "R-3", title := "r", status := "draft",
          docType := "risk",
          frontmatter := { severity := some 4, probability := some 3,
                           residualSeverity := some 9, residualProbability := some 1 },
          body := "" }).residual = createGrid 5 := by
  constructor
  · exact ((C7_grid_population 5 _ _
      { severity := 4, probability := 3, residualSeverity := some 9,
        residualProbability := some 1 } (by decide)).1 (by norm_num)).1
  · exact (C7_grid_population 5 _ _
      { severity := 4, probability := 3, residualSeverity := some 9,
        residualProbability := some 1 } (by decide)).2.2.2.1 (by norm_num)

/-! ### Helpers for the matrix invariants (C10) -/

/-- Total count held in a grid. -/
def gridSum (grid : List (List Nat)) : Nat := (grid.map List.sum).sum

/-- Number of recorded entries classified into tier `t`. -/
def tierCount (t : Acceptability) (rs : List RiskEntry) : Nat :=
  (rs.filter (fun e => e.acceptability = t)).length

theorem rowSum_set_le (row : List Nat) (s : Nat) :
    (row.set s (row.getD s 0 + 1)).sum ≤ row.sum + 1 := by
  induction row generalizing s with
  | nil => simp
  | cons a as ih =>
    cases s with
    | zero => simp [List.set]; omega
    | succ n =>
      simp only [List.set, List.getD_cons_succ, List.sum_cons]
      have := ih n
      omega

theorem gridSum_incAt_le (g : List (List Nat)) (p s : Nat) :
    gridSum (incAt g p s) ≤ gridSum g + 1 := by
  induction g generalizing p with
  | nil => simp [incAt, gridSum]
  | cons row rows ih =>
    cases p with
    | zero =>
      simp only [incAt, gridSum, List.getD_cons_zero, List.set, List.map_cons, List.sum_cons]
      have := rowSum_set_le row s
      omega
    | succ n =>
      simp only [incAt, gridSum, List.getD_cons_succ, List.set, List.map_cons, List.sum_cons]
      have := ih n
      simp only [incAt, gridSum] at this
      omega

theorem gridSum_createGrid (n : Nat) : gridSum (createGrid n) = 0 := by
  simp [gridSum, createGrid, List.map_replicate]

theorem tierCount_append (t : Acceptability) (rs : List RiskEntry) (e : RiskEntry) :
    tierCount t (rs ++ [e]) =
      tierCount t rs + (if e.acceptability = t then 1 else 0) := by
  by_cases h : e.acceptability = t <;> simp [tierCount, List.filter_append, h]

theorem tierCount_total (rs : List RiskEntry) :
    tierCount .acceptable rs + tierCount .review_required rs + tierCount .unacceptable rs =
      rs.length := by
  induction rs with
  | nil => simp [tierCount]
  | cons e es ih =>
    rcases he : e.acceptability with _ | _ | _ <;>
      simp [tierCount, he, List.filter_cons] at ih ⊢ <;> omega

/-- Invariant maintained by the `buildRiskMatrix` loop state. -/
def stInv (st : BuildState) : Prop :=
  st.acceptable = tierCount .acceptable st.risks ∧
  st.reviewRequired = tierCount .review_required st.risks ∧
  st.unacceptable = tierCount .unacceptable st.risks ∧
  gridSum st.inherent ≤ st.risks.length ∧
  gridSum st.residual ≤ st.risks.length

theorem stInv_processDoc (gridSize : Nat) (st : BuildState) (doc : Document)
    (h : stInv st) : stInv (processDoc gridSize st doc) := by
  obtain ⟨h1, h2, h3, h4, h5⟩ := h
  cases hv : extractRiskValues doc with
  | none => simpa [processDoc, hv] using ⟨h1, h2, h3, h4, h5⟩
  | some v =>
    have hrisks := processDoc_risks hv gridSize st
    have hinh : gridSum (processDoc gridSize st doc).inherent ≤ gridSum st.inherent + 1 := by
      simp only [processDoc, hv]
      split
      · exact gridSum_incAt_le _ _ _
      · omega
    have hres : gridSum (processDoc gridSize st doc).residual ≤ gridSum st.residual + 1 := by
      simp only [processDoc, hv]
      split
      · exact gridSum_incAt_le _ _ _
      · omega
    refine ⟨?_, ?_, ?_, ?_, ?_⟩
    · rw [hrisks, tierCount_append]
      rcases hacc : getAcceptability (v.residualProbability.getD v.probability)
          (v.residualSeverity.getD v.severity) with _ | _ | _ <;>
        simp [processDoc, hv, hacc, mkRiskEntry, h1]
    · rw [hrisks, tierCount_append]
      rcases hacc : getAcceptability (v.residualProbability.getD v.probability)
          (v.residualSeverity.getD v.severity) with _ | _ | _ <;>
        simp [processDoc, hv, hacc, mkRiskEntry, h2]
    · rw [hrisks, tierCount_append]
      rcases hacc : getAcceptability (v.residualProbability.getD v.probability)
          (v.residualSeverity.getD v.severity) with _ | _ | _ <;>
        simp [processDoc, hv, hacc, mkRiskEntry, h3]
    · rw [hrisks]
      simp only [List.length_append, List.length_cons, List.length_nil]
      omega
    · rw [hrisks]
      simp only [List.length_append, List.length_cons, List.length_nil]
      omega

theorem foldl_preserve {α β : Type} (P : α → Prop) (f : α → β → α)
    (hstep : ∀ a b, P a → P (f a b)) :
    ∀ (l : List β) (a : α), P a → P (l.foldl f a) := by
  intro l
  induction l with
  | nil => intro a ha; simpa using ha
  | cons b bs ih => intro a ha; exact ih (f a b) (hstep a b ha)

/-- C10: every returned RiskMatrix has `summary.total` equal to the
entry-list length and to the sum of the three tier counts, each tier
count equal to the number of entries carrying that tier, and each
grid's total at most `summary.total`. -/
theorem C10_matrix_invariants (index : DocumentIndex) (gridSize : Nat) (m : RiskMatrix)
    (h : buildRiskMatrix index gridSize = some m) :
    m.summary.total = m.risks.length ∧
    m.summary.total = m.summary.acceptable + m.summary.reviewRequired + m.summary.unacceptable ∧
    m.summary.acceptable = tierCount .acceptable m.risks ∧
    m.summary.reviewRequired = tierCount .review_required m.risks ∧
    m.summary.unacceptable = tierCount .unacceptable m.risks ∧
    gridSum m.inherent ≤ m.summary.total ∧
    gridSum m.residual ≤ m.summary.total := by
  have hinv : stInv (((mapGet index.byType "risk").getD []).foldl (processDoc gridSize)
      { inherent := createGrid gridSize, residual := createGrid gridSize,
        risks := [], acceptable := 0, reviewRequired := 0, unacceptable := 0 }) := by
    refine foldl_preserve stInv (processDoc gridSize)
      (fun a b ha => stInv_processDoc gridSize a b ha) _ _ ?_
    refine ⟨by simp [tierCount], by simp [tierCount], by simp [tierCount], ?_, ?_⟩ <;>
      simp [gridSum_createGrid]
  simp only [buildRiskMatrix] at h
  split at h
  · exact absurd h (by simp)
  · obtain rfl : _ = m := Option.some.inj h
    obtain ⟨h1, h2, h3, h4, h5⟩ := hinv
    refine ⟨rfl, ?_, h1, h2, h3, ?_, ?_⟩
    · simp only [h1, h2, h3]
      exact (tierCount_total _).symm
    · simpa using h4
    · simpa using h5

theorem walkDirs_ne_unknown {dirs : List String} {t : String}
    (h : walkDirs dirs = some t) : t ≠ "unknown" := by
  induction dirs with
  | nil => simp [walkDirs] at h
  | cons d ds ih =>
    simp only [walkDirs] at h
    cases hd : DIR_TYPE_MAP d with
    | none => rw [hd] at h; exact ih h
    | some u =>
      rw [hd] at h
      injection h with h
      subst h
      simp only [DIR_TYPE_MAP, Option.map_eq_some'] at hd
      obtain ⟨p, hfind, hp2⟩ := hd
      have hmem := List.mem_of_find?_eq_some hfind
      have hall : ∀ q ∈ DIR_TYPE_PAIRS, q.2 ≠ "unknown" := by decide
      exact hp2 ▸ hall p hmem

/-- C8: docType is the directory-table entry of the deepest matching
path segment; failing that, the id-prefix-table entry for the id's
segment before the first `-`; failing that, `unknown` — and a file
directly under a `test` directory is a `test_case` whatever its id. -/
theorem C8_doc_type_inference :
    (∀ fp id t : String,
        walkDirs (((splitOnChar '/' fp.toList).map String.mk).dropLast.reverse) = some t →
        docTypeOf fp id = t) ∧
    (∀ fp id : String,
        walkDirs (((splitOnChar '/' fp.toList).map String.mk).dropLast.reverse) = none →
        docTypeOf fp id = inferTypeFromId id) ∧
    (∀ id : String,
        inferTypeFromId id =
          (prefixTypeMap
            (String.mk ((id.toList.takeWhile (fun c => c ≠ '-')).map Char.toUpper))).getD
            "unknown") ∧
    (∀ (fp id fname : String) (dirs : List String),
        (splitOnChar '/' fp.toList).map String.mk = dirs ++ ["test", fname] →
        docTypeOf fp id = "test_case") := by
  have hmain : ∀ fp id t : String,
      walkDirs (((splitOnChar '/' fp.toList).map String.mk).dropLast.reverse) = some t →
      docTypeOf fp id = t := by
    intro fp id t h
    have hne := walkDirs_ne_unknown h
    unfold docTypeOf inferDocType
    rw [h]
    simp [hne]
  refine ⟨hmain, ?_, fun _ => rfl, ?_⟩
  · intro fp id h
    unfold docTypeOf inferDocType
    rw [h]
    simp
  · intro fp id fname dirs h
    apply hmain
    have hsplit : ((splitOnChar '/' fp.toList).map String.mk).dropLast.reverse =
        "test" :: dirs.reverse := by
      rw [h]
      have : dirs ++ ["test", fname] = (dirs ++ ["test"]) ++ [fname] := by simp
      rw [this, List.dropLast_concat, List.reverse_append]
      rfl
    rw [hsplit]
    rfl

/-- Witness for the hypotheses of `C8_doc_type_inference`. -/
theorem C8_doc_type_inference_witness :
    docTypeOf "device/test/RISK-001.md" "RISK-001" = "test_case" ∧
    docTypeOf "foo/SRS-001.md" "srs-001" = inferTypeFromId "srs-001" := by
  constructor
  · exact C8_doc_type_inference.2.2.2 "device/test/RISK-001.md" "RISK-001" "RISK-001.md"
      ["device"] (by decide)
  · exact C8_doc_type_inference.2.1 "foo/SRS-001.md" "srs-001" (by decide)

/-- C4: per risk document with a resolvable `analyzes` link, a hazard
without `leads_to` contributes exactly one warning on the hazard's file
and one `hazard_no_situation` gap; a resolved situation without
`results_in` contributes exactly one warning on the situation's file
and one `situation_no_harm` gap; an unresolvable `analyzes` target
contributes nothing. -/
theorem C4_hazard_chain_cases (index : DocumentIndex) (docLinks : List (String × List Link)) :
    (∀ (risk : Document) (a : Link) (hazardDoc : Document),
        ((mapGet docLinks risk.id).getD []).find? (fun l => l.type == "analyzes") = some a →
        mapGet index.byId a.targetId = some hazardDoc →
        ((mapGet docLinks a.targetId).getD []).find? (fun l => l.type == "leads_to") = none →
        hazardChainOut index docLinks risk =
          ([{ file := hazardDoc.filePath, rule := "traceability/hazard-chain",
              message := "Hazard " ++ a.targetId ++ " has no \"leads_to\" hazardous situation",
              severity := "warning" }],
           [{ documentId := a.targetId, gapType := "hazard_no_situation",
              message := "Hazard has no leads_to link", severity := "warning" }])) ∧
    (∀ (risk : Document) (a : Link) (hazardDoc : Document) (lt : Link)
        (situationDoc : Document),
        ((mapGet docLinks risk.id).getD []).find? (fun l => l.type == "analyzes") = some a →
        mapGet index.byId a.targetId = some hazardDoc →
        ((mapGet docLinks a.targetId).getD []).find? (fun l => l.type == "leads_to") = some lt →
        mapGet index.byId lt.targetId = some situationDoc →
        ((mapGet docLinks lt.targetId).getD []).find? (fun l => l.type == "results_in") = none →
        hazardChainOut index docLinks risk =
          ([{ file := situationDoc.filePath, rule := "traceability/hazard-chain",
              message := "Hazardous situation " ++ lt.targetId ++ " has no \"results_in\" harm",
              severity := "warning" }],
           [{ documentId := lt.targetId, gapType := "situation_no_harm",
              message := "Situation has no results_in link", severity := "warning" }])) ∧
    (∀ (risk : Document) (a : Link),
        ((mapGet docLinks risk.id).getD []).find? (fun l => l.type == "analyzes") = some a →
        mapGet index.byId a.targetId = none →
        hazardChainOut index docLinks risk = ([], [])) := by
  refine ⟨?_, ?_, ?_⟩
  · intro risk a hazardDoc h1 h2 h3
    simp only [hazardChainOut, h1, h2, h3]
  · intro risk a hazardDoc lt situationDoc h1 h2 h3 h4 h5
    simp only [hazardChainOut, h1, h2, h3, h4, h5]
  · intro risk a h1 h2
    simp only [hazardChainOut, h1, h2]

/-- Concrete scenario for `C4_hazard_chain_cases`: a risk analyzing an
indexed hazard that lacks a `leads_to` link. -/
def c4risk : Document :=
  { filePath := "device/risk/RISK-1.md", id := "RISK-1", title := "r", status := "draft",
    docType := "risk", frontmatter := {}, body := "**Analyzes:** [HAZ-1]" }

def c4hazard : Document :=
  { filePath := "device/risk/hazards/HAZ-1.md", id := "HAZ-1", title := "h", status := "draft",
    docType := "hazard", frontmatter := {}, body := "A hazard with no links." }

def c4index : DocumentIndex :=
  { byId := [("RISK-1", c4risk), ("HAZ-1", c4hazard)],
    byPath := [("device/risk/RISK-1.md", c4risk), ("device/risk/hazards/HAZ-1.md", c4hazard)],
    byType := [("risk", [c4risk]), ("hazard", [c4hazard])] }

/-- Witness for the hypotheses of `C4_hazard_chain_cases`. -/
theorem C4_hazard_chain_cases_witness :
    hazardChainOut c4index (buildDocLinks [c4risk, c4hazard]) c4risk =
      ([{ file := c4hazard.filePath, rule := "traceability/hazard-chain",
          message := "Hazard " ++ "HAZ-1" ++ " has no \"leads_to\" hazardous situation",
          severity := "warning" }],
       [{ documentId := "HAZ-1", gapType := "hazard_no_situation",
          message := "Hazard has no leads_to link", severity := "warning" }]) :=
  (C4_hazard_chain_cases c4index (buildDocLinks [c4risk, c4hazard])).1 c4risk
    { type := "analyzes", targetId := "HAZ-1" } c4hazard
    (by decide) (by decide) (by decide)

/-! ### Coverage characterization (C3) -/

/-- The coverage predicate exactly as the claim words it (for
comparison with the code): covered iff the source's own outbound links
contain one of the chain's relationship kind, except that a
`verified_by` chain is also covered when some target-type document has
an outbound verification link back to the source. -/
def claimCovered (chain : TraceabilityChain) (index : DocumentIndex)
    (docLinks : List (String × List Link)) (sourceDoc : Document) : Prop :=
  (∃ l ∈ (mapGet docLinks sourceDoc.id).getD [], l.type = chain.link) ∨
  (chain.link = "verified_by" ∧
    ∃ targetDoc ∈ (mapGet index.byType chain.target).getD [],
      ∃ l ∈ (mapGet docLinks targetDoc.id).getD [],
        l.type = "verified_by" ∧ l.targetId = sourceDoc.id)

/-- The coverage predicate the code implements: for a `verified_by`
chain an outbound link of either verification kind (`verified_by` or
`validated_by`) counts, and the reverse check likewise accepts either
verification kind; other chains are outbound-only. -/
def amendedCovered (chain : TraceabilityChain) (index : DocumentIndex)
    (docLinks : List (String × List Link)) (sourceDoc : Document) : Prop :=
  if chain.link = "verified_by" then
    (∃ l ∈ (mapGet docLinks sourceDoc.id).getD [],
        l.type = "verified_by" ∨ l.type = "validated_by") ∨
    (∃ targetDoc ∈ (mapGet index.byType chain.target).getD [],
        ∃ l ∈ (mapGet docLinks targetDoc.id).getD [],
          (l.type = "verified_by" ∨ l.type = "validated_by") ∧ l.targetId = sourceDoc.id)
  else
    ∃ l ∈ (mapGet docLinks sourceDoc.id).getD [], l.type = chain.link

/-- Source document with only an outbound `validated_by` link. -/
def c3srs : Document :=
  { filePath := "software-requirements/SRS-001.md", id := "SRS-001", title := "T",
    status := "approved", docType := "software_requirement", frontmatter := {},
    body := "**Validates:** [UN-001]" }

def c3chain : TraceabilityChain :=
  { source := "software_requirement", target := "test_case", link := "verified_by" }

def c3index : DocumentIndex :=
  { byId := [("SRS-001", c3srs)],
    byPath := [("software-requirements/SRS-001.md", c3srs)],
    byType := [("software_requirement", [c3srs])] }

def c3config : Config :=
  { type := "device", traceability := { chains := [c3chain] } }

/-- C3 counterexample: for a `verified_by` chain the code also counts a
source with only an outbound `validated_by` link as covered (no warning,
coveredSources = 1), while the claim's predicate does not cover it. -/
theorem C3_counterexample :
    isCovered c3chain c3index (buildDocLinks [c3srs]) c3srs = true ∧
    ¬ claimCovered c3chain c3index (buildDocLinks [c3srs]) c3srs ∧
    (validateTraceability [c3srs] c3index c3config).1 = [] ∧
    (validateTraceability [c3srs] c3index c3config).2.1.map
        (fun c => (c.coveredSources, c.totalSources, c.coveragePercent)) = [(1, 1, 100)] := by
  refine ⟨by decide, ?_, by decide, by decide⟩
  unfold claimCovered
  decide

theorem chainLoop_spec (index : DocumentIndex) (docLinks : List (String × List Link))
    (chain : TraceabilityChain) :
    ∀ (l : List Document) (n : Nat) (ws : List ValidationWarning) (gs : List GapEntry),
      l.foldl (fun acc d =>
          if isCovered chain index docLinks d then (acc.1 + 1, acc.2.1, acc.2.2)
          else (acc.1, acc.2.1 ++ [chainWarning chain d], acc.2.2 ++ [chainGap chain d]))
        (n, ws, gs) =
      (n + l.countP (fun d => isCovered chain index docLinks d),
       ws ++ (l.filter (fun d => !(isCovered chain index docLinks d))).map (chainWarning chain),
       gs ++ (l.filter (fun d => !(isCovered chain index docLinks d))).map (chainGap chain)) := by
  intro l
  induction l with
  | nil => intro n ws gs; simp
  | cons d ds ih =>
    intro n ws gs
    simp only [List.foldl_cons]
    by_cases hc : isCovered chain index docLinks d = true
    · rw [if_pos hc, ih]
      simp [List.countP_cons, List.filter_cons, hc, Prod.ext_iff]
      omega
    · have hcf : isCovered chain index docLinks d = false := by simpa using hc
      rw [if_neg hc, ih]
      simp [List.countP_cons, List.filter_cons, hcf, Prod.ext_iff]

/-- C3 amended: the code's per-source coverage decision holds iff the
amended predicate does (verification chains accept either verification
kind, outbound or reverse; all other chains are strictly outbound), and
the per-chain loop counts exactly the covered sources, warning and
gap-listing exactly the uncovered ones. -/
theorem C3_amended_coverage :
    (∀ (chain : TraceabilityChain) (index : DocumentIndex)
        (docLinks : List (String × List Link)) (d : Document),
        isCovered chain index docLinks d = true ↔ amendedCovered chain index docLinks d) ∧
    (∀ (index : DocumentIndex) (docLinks : List (String × List Link))
        (chain : TraceabilityChain),
        processChain index docLinks chain =
          (((mapGet index.byType chain.source).getD []).countP
              (fun d => isCovered chain index docLinks d),
           (((mapGet index.byType chain.source).getD []).filter
              (fun d => !(isCovered chain index docLinks d))).map (chainWarning chain),
           (((mapGet index.byType chain.source).getD []).filter
              (fun d => !(isCovered chain index docLinks d))).map (chainGap chain))) := by
  constructor
  · intro chain index docLinks d
    unfold isCovered hasRequiredLink reverseCovered amendedCovered
    by_cases h : chain.link = "verified_by"
    · simp [h, List.any_eq_true]
    · have h' : (chain.link == "verified_by") = false := by
        simpa using h
      simp [h, h', List.any_eq_true]
  · intro index docLinks chain
    unfold processChain
    rw [chainLoop_spec]
    simp

/-! ### Link-extraction lemmas (C2)

Stepping lemmas for the scanners, a no-match predicate that lets whole
segments of the input be skipped, and evaluation of the scanners on
marker lines built from arbitrary well-formed identifiers. -/

theorem scanBAux_skip (marker : List Char) (ty : String) (t : List Char) :
    ∀ r : List Char, scanBracketAux marker ty t.length (t ++ r) = scanBracketAux marker ty 0 r := by
  induction t with
  | nil => intro r; rfl
  | cons c cs ih =>
    intro r
    show scanBracketAux marker ty (cs.length + 1) (c :: (cs ++ r)) = _
    rw [show scanBracketAux marker ty (cs.length + 1) (c :: (cs ++ r)) =
      scanBracketAux marker ty cs.length (cs ++ r) from rfl]
    exact ih r

theorem scanLAux_skip (marker : List Char) (ty : String) (t : List Char) :
    ∀ r : List Char, scanLineAux marker ty t.length (t ++ r) = scanLineAux marker ty 0 r := by
  induction t with
  | nil => intro r; rfl
  | cons c cs ih =>
    intro r
    show scanLineAux marker ty (cs.length + 1) (c :: (cs ++ r)) = _
    rw [show scanLineAux marker ty (cs.length + 1) (c :: (cs ++ r)) =
      scanLineAux marker ty cs.length (cs ++ r) from rfl]
    exact ih r

theorem scanBAux_cons_none {marker : List Char} {c : Char} {rest : List Char} (ty : String)
    (h : tryMarker marker c rest = none) :
    scanBracketAux marker ty 0 (c :: rest) = scanBracketAux marker ty 0 rest := by
  simp only [scanBracketAux, h]

theorem scanLAux_cons_none {marker : List Char} {c : Char} {rest : List Char} (ty : String)
    (h : tryMarker marker c rest = none) :
    scanLineAux marker ty 0 (c :: rest) = scanLineAux marker ty 0 rest := by
  simp only [scanLineAux, h]

/-- `noMatchAt m s` holds when the case-insensitive match of `m`
against `s` fails strictly inside `s`, so that no continuation of the
input can make it succeed. -/
def noMatchAt : List Char → List Char → Bool
  | [], _ => false
  | _ :: _, [] => false
  | mh :: mt, c :: cs => if ciEq mh c then noMatchAt mt cs else true

/-- `noStartIn m l`: no match of `m` can start at any position of `l`,
whatever follows `l`. -/
def noStartIn (m : List Char) : List Char → Bool
  | [] => true
  | c :: rest => noMatchAt m (c :: rest) && noStartIn m rest

theorem matchCI_none_of_noMatchAt :
    ∀ (p s : List Char), noMatchAt p s = true → ∀ r, matchCI p (s ++ r) = none := by
  intro p
  induction p with
  | nil => intro s h; simp [noMatchAt] at h
  | cons mh mt ih =>
    intro s h r
    cases s with
    | nil => simp [noMatchAt] at h
    | cons c cs =>
      simp only [noMatchAt] at h
      by_cases hc : ciEq mh c
      · rw [if_pos hc] at h
        simp only [List.cons_append, matchCI, if_pos hc]
        exact ih cs h r
      · simp only [List.cons_append, matchCI, if_neg hc]

theorem tryMarker_none_of_noMatchAt {m : List Char} {c : Char} {cs : List Char}
    (h : noMatchAt m (c :: cs) = true) (r : List Char) :
    tryMarker m c (cs ++ r) = none := by
  cases m with
  | nil => rfl
  | cons mh mt =>
    simp only [noMatchAt] at h
    by_cases hc : ciEq mh c
    · rw [if_pos hc] at h
      simp only [tryMarker, if_pos hc]
      exact matchCI_none_of_noMatchAt mt cs h r
    · simp only [tryMarker, if_neg hc]

theorem noMatchAt_append {m s : List Char} (h : noMatchAt m s = true) (u : List Char) :
    noMatchAt m (s ++ u) = true := by
  induction m generalizing s with
  | nil => simp [noMatchAt] at h
  | cons mh mt ih =>
    cases s with
    | nil => simp [noMatchAt] at h
    | cons c cs =>
      simp only [noMatchAt] at h ⊢
      by_cases hc : ciEq mh c
      · rw [if_pos hc] at h ⊢
        exact ih h
      · rw [if_neg hc]

theorem noStartIn_append {m l1 l2 : List Char} (h1 : noStartIn m l1 = true)
    (h2 : noStartIn m l2 = true) : noStartIn m (l1 ++ l2) = true := by
  induction l1 with
  | nil => simpa using h2
  | cons c cs ih =>
    simp only [noStartIn, Bool.and_eq_true] at h1
    simp only [List.cons_append, noStartIn, Bool.and_eq_true]
    exact ⟨noMatchAt_append h1.1 l2, ih h1.2⟩

theorem noStartIn_star_aux {mt : List Char} : ∀ {l : List Char},
    (∀ c ∈ l, ciEq '*' c = false) → noStartIn ('*' :: mt) l = true := by
  intro l h
  induction l with
  | nil => rfl
  | cons c cs ih =>
    simp only [noStartIn, Bool.and_eq_true]
    refine ⟨?_, ih (fun d hd => h d (List.mem_cons_of_mem c hd))⟩
    simp [noMatchAt, h c (List.mem_cons_self c cs)]

theorem scanBAux_skip_of_noStartIn {m : List Char} (ty : String) {l : List Char}
    (h : noStartIn m l = true) (r : List Char) :
    scanBracketAux m ty 0 (l ++ r) = scanBracketAux m ty 0 r := by
  induction l with
  | nil => rfl
  | cons c cs ih =>
    simp only [noStartIn, Bool.and_eq_true] at h
    simp only [List.cons_append]
    rw [scanBAux_cons_none ty (tryMarker_none_of_noMatchAt h.1 r)]
    exact ih h.2

theorem scanLAux_skip_of_noStartIn {m : List Char} (ty : String) {l : List Char}
    (h : noStartIn m l = true) (r : List Char) :
    scanLineAux m ty 0 (l ++ r) = scanLineAux m ty 0 r := by
  induction l with
  | nil => rfl
  | cons c cs ih =>
    simp only [noStartIn, Bool.and_eq_true] at h
    simp only [List.cons_append]
    rw [scanLAux_cons_none ty (tryMarker_none_of_noMatchAt h.1 r)]
    exact ih h.2

theorem scanBracket_nil_of_noStartIn {m : List Char} (ty : String) {l : List Char}
    (h : noStartIn m l = true) : scanBracket m ty l = [] := by
  have := scanBAux_skip_of_noStartIn (m := m) ty h []
  rw [List.append_nil] at this
  exact this

theorem scanLine_nil_of_noStartIn {m : List Char} (ty : String) {l : List Char}
    (h : noStartIn m l = true) : scanLine m ty l = [] := by
  have := scanLAux_skip_of_noStartIn (m := m) ty h []
  rw [List.append_nil] at this
  exact this

/-- A well-formed identifier character: not a bracket, not whitespace,
and not (case-insensitively) the `*` that opens every marker.
Alphanumerics and dashes all qualify. -/
def goodIdChar (c : Char) : Prop :=
  ciEq '*' c = false ∧ c ≠ '[' ∧ c ≠ ']' ∧ isWs c = false

/-- A well-formed identifier: non-empty and made of well-formed
characters. -/
def goodId (s : List Char) : Prop := s ≠ [] ∧ ∀ c ∈ s, goodIdChar c

instance (c : Char) : Decidable (goodIdChar c) := by unfold goodIdChar; infer_instance

instance (s : List Char) : Decidable (goodId s) := by unfold goodId; infer_instance

theorem nonNl_of_not_ws {c : Char} (h : isWs c = false) : (!(c = '\n' || c = '\r')) = true := by
  simp only [isWs, Bool.or_eq_false_iff, decide_eq_false_iff_not] at h
  obtain ⟨⟨⟨⟨⟨_, _⟩, h3⟩, h4⟩, _⟩, _⟩ := h
  simp [h3, h4]

theorem dropWhile_isWs_eq_self {l : List Char} (h : ∀ c ∈ l, isWs c = false) :
    l.dropWhile isWs = l := by
  cases l with
  | nil => rfl
  | cons c cs => simp [List.dropWhile_cons, h c (List.mem_cons_self c cs)]

theorem trimChars_eq_self {l : List Char} (h : ∀ c ∈ l, isWs c = false) :
    trimChars l = l := by
  unfold trimChars
  rw [dropWhile_isWs_eq_self h]
  rw [dropWhile_isWs_eq_self (fun c hc => h c (List.mem_reverse.mp hc))]
  exact l.reverse_reverse

theorem takeWhile_total {p : Char → Bool} {l : List Char} (h : ∀ c ∈ l, p c = true) :
    l.takeWhile p = l :=
  List.takeWhile_eq_self_iff.mpr h

theorem takeWhile_append_stop {p : Char → Bool} {a : List Char} (x : Char) (r : List Char)
    (h : ∀ c ∈ a, p c = true) (hx : p x = false) :
    (a ++ x :: r).takeWhile p = a := by
  induction a with
  | nil => simp [List.takeWhile_cons, hx]
  | cons c cs ih =>
    simp only [List.cons_append, List.takeWhile_cons, h c (List.mem_cons_self c cs), if_true]
    rw [ih (fun d hd => h d (List.mem_cons_of_mem c hd))]

theorem drop_append_cons (a : List Char) (x : Char) (r : List Char) :
    (a ++ x :: r).drop (a.length + 1) = r := by
  rw [show a ++ x :: r = (a ++ [x]) ++ r by simp]
  exact List.drop_left' (by simp)

theorem matchCI_self : ∀ (p s : List Char), matchCI p (p ++ s) = some s := by
  intro p
  induction p with
  | nil => intro s; rfl
  | cons c cs ih =>
    intro s
    simp only [List.cons_append, matchCI, ciEq, beq_self_eq_true, if_true]
    exact ih s

theorem tryMarker_self (mh : Char) (mt r : List Char) :
    tryMarker (mh :: mt) mh (mt ++ r) = some r := by
  simp only [tryMarker, ciEq, beq_self_eq_true, if_true]
  exact matchCI_self mt r

theorem noStartIn_of_no_star {m l : List Char} (hm : m.head? = some '*')
    (h : ∀ c ∈ l, ciEq '*' c = false) : noStartIn m l = true := by
  cases m with
  | nil => simp at hm
  | cons mh mt =>
    have : mh = '*' := by simpa using hm
    subst this
    exact noStartIn_star_aux h

theorem scanBAux_cons_match {m : List Char} {c : Char} {rest s1 s3 : List Char} (ty : String)
    (h : tryMarker m c rest = some s1)
    (h2 : s1.dropWhile isWs = '[' :: s3)
    (h3 : 0 < (s3.takeWhile (fun e => e ≠ ']')).length ∧
      (s3.takeWhile (fun e => e ≠ ']')).length < s3.length) :
    scanBracketAux m ty 0 (c :: rest) =
      (idsFromText (s3.takeWhile (fun e => e ≠ ']'))).map (fun i => ⟨ty, String.mk i⟩)
        ++ scanBracketAux m ty
            (rest.length - (s3.length - ((s3.takeWhile (fun e => e ≠ ']')).length + 1)))
            rest := by
  simp only [scanBracketAux, h, h2]
  rw [if_pos trivial, if_pos h3]

theorem scanBAux_cons_noBracketHead {m : List Char} {c : Char} {rest s1 s3 : List Char}
    {d : Char} (ty : String)
    (h : tryMarker m c rest = some s1)
    (h2 : s1.dropWhile isWs = d :: s3)
    (hd : d ≠ '[') :
    scanBracketAux m ty 0 (c :: rest) = scanBracketAux m ty 0 rest := by
  simp only [scanBracketAux, h, h2]
  rw [if_neg hd]

theorem scanLAux_cons_match {m : List Char} {c : Char} {rest s1 : List Char} (ty : String)
    (h : tryMarker m c rest = some s1)
    (h3 : 0 < ((s1.dropWhile isWs).takeWhile (fun d => !(d = '\n' || d = '\r'))).length) :
    scanLineAux m ty 0 (c :: rest) =
      (idsFromText ((s1.dropWhile isWs).takeWhile (fun d => !(d = '\n' || d = '\r')))).map
          (fun i => ⟨ty, String.mk i⟩)
        ++ scanLineAux m ty
            (rest.length - ((s1.dropWhile isWs).length -
              ((s1.dropWhile isWs).takeWhile (fun d => !(d = '\n' || d = '\r'))).length)) rest := by
  simp only [scanLineAux, h]
  rw [if_pos h3]

theorem findBIdsAux_skip (t : List Char) :
    ∀ r : List Char, findBracketIdsAux t.length (t ++ r) = findBracketIdsAux 0 r := by
  induction t with
  | nil => intro r; rfl
  | cons c cs ih =>
    intro r
    show findBracketIdsAux (cs.length + 1) (c :: (cs ++ r)) = _
    rw [show findBracketIdsAux (cs.length + 1) (c :: (cs ++ r)) =
      findBracketIdsAux cs.length (cs ++ r) from rfl]
    exact ih r

theorem findBIdsAux_nil_of_no_bracket {s : List Char} (h : ∀ c ∈ s, c ≠ '[') :
    findBracketIdsAux 0 s = [] := by
  induction s with
  | nil => rfl
  | cons c cs ih =>
    simp only [findBracketIdsAux]
    rw [if_neg (h c (List.mem_cons_self c cs))]
    exact ih (fun d hd => h d (List.mem_cons_of_mem c hd))

theorem findBIdsAux_bracket {a : List Char} (r : List Char) (hane : a ≠ [])
    (ha : ∀ c ∈ a, c ≠ ']') :
    findBracketIdsAux 0 ('[' :: (a ++ ']' :: r)) = a :: findBracketIdsAux 0 r := by
  have htw : (a ++ ']' :: r).takeWhile (fun d => d ≠ ']') = a :=
    takeWhile_append_stop ']' r (fun c hc => by simp [ha c hc]) (by simp)
  have hcond : 0 < a.length ∧ a.length < (a ++ ']' :: r).length := by
    refine ⟨List.length_pos.mpr hane, ?_⟩
    simp only [List.length_append, List.length_cons]
    omega
  simp only [findBracketIdsAux, htw]
  rw [if_pos trivial, if_pos hcond]
  rw [show a ++ ']' :: r = (a ++ [']']) ++ r by simp,
    show a.length + 1 = (a ++ [']']).length by simp]
  rw [findBIdsAux_skip]

theorem filter_brackets_eq_self {a : List Char} (h : ∀ c ∈ a, c ≠ '[' ∧ c ≠ ']') :
    a.filter (fun c => !(c = '[' || c = ']')) = a := by
  apply List.filter_eq_self.mpr
  intro c hc
  simp [(h c hc).1, (h c hc).2]

theorem idsFromText_good {a : List Char} (ha : goodId a) : idsFromText a = [a] := by
  obtain ⟨hne, hall⟩ := ha
  unfold idsFromText findBracketIds
  rw [findBIdsAux_nil_of_no_bracket (fun c hc => (hall c hc).2.1)]
  simp only [List.isEmpty_nil, if_true]
  rw [trimChars_eq_self (fun c hc => (hall c hc).2.2.2)]
  simp [hne]

theorem findBIdsAux_cons_other {c : Char} (rest : List Char) (hc : c ≠ '[') :
    findBracketIdsAux 0 (c :: rest) = findBracketIdsAux 0 rest := by
  simp only [findBracketIdsAux]
  rw [if_neg hc]

theorem scanBAux_all (m : List Char) (ty : String) (l : List Char) :
    scanBracketAux m ty l.length l = [] := by
  have h := scanBAux_skip m ty l []
  rw [List.append_nil] at h
  rw [h]
  rfl

theorem scanLAux_all (m : List Char) (ty : String) (l : List Char) :
    scanLineAux m ty l.length l = [] := by
  have h := scanLAux_skip m ty l []
  rw [List.append_nil] at h
  rw [h]
  rfl

/-- No marker can start anywhere in a two-identifier line
`C1 ++ a ++ C2 ++ b ++ C3` whose fixed segments admit no match. -/
theorem noStartIn_line2shape {m C1 C2 C3 a b : List Char} (hm : m.head? = some '*')
    (h1 : noStartIn m C1 = true) (h2 : noStartIn m C2 = true) (h3 : noStartIn m C3 = true)
    (ha : ∀ c ∈ a, ciEq '*' c = false) (hb : ∀ c ∈ b, ciEq '*' c = false) :
    noStartIn m (C1 ++ (a ++ (C2 ++ (b ++ C3)))) = true :=
  noStartIn_append h1 (noStartIn_append (noStartIn_of_no_star hm ha)
    (noStartIn_append h2 (noStartIn_append (noStartIn_of_no_star hm hb) h3)))

/-- No marker can start anywhere in a bracketless line `C1 ++ a`. -/
theorem noStartIn_nbshape {m C1 a : List Char} (hm : m.head? = some '*')
    (h1 : noStartIn m C1 = true) (ha : ∀ c ∈ a, ciEq '*' c = false) :
    noStartIn m (C1 ++ a) = true :=
  noStartIn_append h1 (noStartIn_of_no_star hm ha)

/-- A marker line with two bracketed identifiers, for a bracket-style
marker (exemplified by `Mitigates`). -/
def mitLine2 (a b : List Char) : List Char :=
  "**Mitigates:** [".toList ++ (a ++ ("], [".toList ++ (b ++ "]".toList)))

/-- A marker line with two bracketed identifiers, for a line-style
marker (exemplified by `Verifies`). -/
def verLine2 (a b : List Char) : List Char :=
  "**Verifies:** [".toList ++ (a ++ ("], [".toList ++ (b ++ "]".toList)))

/-- A bracketless marker line for a bracket-style marker. -/
def mitLineNB (a : List Char) : List Char := "**Mitigates:** ".toList ++ a

/-- A bracketless marker line for a line-style marker. -/
def verLineNB (a : List Char) : List Char := "**Verifies:** ".toList ++ a

theorem scanB_mitLine2 (a b : List Char) (ha : goodId a) (hb : goodId b) :
    scanBracket "**Mitigates:**".toList "mitigates" (mitLine2 a b) =
      [⟨"mitigates", String.mk a⟩] := by
  obtain ⟨hane, haall⟩ := ha
  obtain ⟨hbne, hball⟩ := hb
  unfold scanBracket mitLine2
  rw [show "**Mitigates:** [".toList ++ (a ++ ("], [".toList ++ (b ++ "]".toList))) =
      '*' :: ("*Mitigates:**".toList ++ (" [".toList ++ (a ++ (']' ::
        (", [".toList ++ (b ++ [']'])))))) from rfl]
  have hm : tryMarker "**Mitigates:**".toList '*'
      ("*Mitigates:**".toList ++ (" [".toList ++ (a ++ (']' ::
        (", [".toList ++ (b ++ [']'])))))) =
      some (" [".toList ++ (a ++ (']' :: (", [".toList ++ (b ++ [']']))))) :=
    tryMarker_self '*' "*Mitigates:**".toList _
  have h2 : (" [".toList ++ (a ++ (']' :: (", [".toList ++ (b ++ [']']))))).dropWhile isWs =
      '[' :: (a ++ (']' :: (", [".toList ++ (b ++ [']'])))) := by
    rw [show " [".toList ++ (a ++ (']' :: (", [".toList ++ (b ++ [']'])))) =
      ' ' :: '[' :: (a ++ (']' :: (", [".toList ++ (b ++ [']'])))) from rfl]
    simp [List.dropWhile_cons, isWs]
  have htw : (a ++ (']' :: (", [".toList ++ (b ++ [']'])))).takeWhile (fun e => e ≠ ']') = a :=
    takeWhile_append_stop ']' _ (fun c hc => by simp [(haall c hc).2.2.1]) (by simp)
  have h3 : 0 < ((a ++ (']' :: (", [".toList ++ (b ++ [']'])))).takeWhile
        (fun e => e ≠ ']')).length ∧
      ((a ++ (']' :: (", [".toList ++ (b ++ [']'])))).takeWhile (fun e => e ≠ ']')).length <
        (a ++ (']' :: (", [".toList ++ (b ++ [']'])))).length := by
    rw [htw]
    refine ⟨List.length_pos.mpr hane, ?_⟩
    simp only [List.length_append, List.length_cons]
    omega
  rw [scanBAux_cons_match "mitigates" hm h2 h3, htw,
    idsFromText_good ⟨hane, haall⟩]
  have hns : noStartIn "**Mitigates:**".toList (", [".toList ++ (b ++ [']'])) = true :=
    noStartIn_append (by decide)
      (noStartIn_append (noStartIn_of_no_star (by rfl) (fun c hc => (hball c hc).1))
        (by decide))
  have hre : "*Mitigates:**".toList ++ (" [".toList ++ (a ++ (']' ::
      (", [".toList ++ (b ++ [']']))))) =
      ("*Mitigates:**".toList ++ (" [".toList ++ (a ++ [']']))) ++
        (", [".toList ++ (b ++ [']'])) := by
    simp [List.append_assoc]
  rw [hre]
  rw [show (("*Mitigates:**".toList ++ (" [".toList ++ (a ++ [']']))) ++
        (", [".toList ++ (b ++ [']']))).length -
      ((a ++ (']' :: (", [".toList ++ (b ++ [']'])))).length - (a.length + 1)) =
      ("*Mitigates:**".toList ++ (" [".toList ++ (a ++ [']']))).length from by
    simp only [List.length_append, List.length_cons]
    simp
    omega]
  rw [scanBAux_skip]
  have hnil : scanBracketAux "**Mitigates:**".toList "mitigates" 0
      (", [".toList ++ (b ++ [']'])) = [] := scanBracket_nil_of_noStartIn "mitigates" hns
  rw [hnil]
  rfl


theorem scanL_verLine2 (a b : List Char) (ha : goodId a) (hb : goodId b) :
    scanLine "**Verifies:**".toList "verified_by" (verLine2 a b) =
      [⟨"verified_by", String.mk a⟩, ⟨"verified_by", String.mk b⟩] := by
  obtain ⟨hane, haall⟩ := ha
  obtain ⟨hbne, hball⟩ := hb
  unfold scanLine verLine2
  rw [show "**Verifies:** [".toList ++ (a ++ ("], [".toList ++ (b ++ "]".toList))) =
      '*' :: ("*Verifies:**".toList ++ (' ' :: '[' :: (a ++ (']' :: ',' :: ' ' :: '[' ::
        (b ++ [']']))))) from rfl]
  have hm : tryMarker "**Verifies:**".toList '*'
      ("*Verifies:**".toList ++ (' ' :: '[' :: (a ++ (']' :: ',' :: ' ' :: '[' ::
        (b ++ [']']))))) =
      some (' ' :: '[' :: (a ++ (']' :: ',' :: ' ' :: '[' :: (b ++ [']'])))) :=
    tryMarker_self '*' "*Verifies:**".toList _
  have h2 : (' ' :: '[' :: (a ++ (']' :: ',' :: ' ' :: '[' :: (b ++ [']'])))).dropWhile isWs =
      '[' :: (a ++ (']' :: ',' :: ' ' :: '[' :: (b ++ [']']))) := by
    simp [List.dropWhile_cons, isWs]
  have hmem : ∀ c ∈ ('[' :: (a ++ (']' :: ',' :: ' ' :: '[' :: (b ++ [']'])))),
      (!(c = '\n' || c = '\r')) = true := by
    intro c hc
    simp only [List.mem_cons, List.mem_append, List.mem_singleton] at hc
    rcases hc with rfl | hca | rfl | rfl | rfl | rfl | hcb | rfl | h0
    · rfl
    · exact nonNl_of_not_ws (haall c hca).2.2.2
    · rfl
    · rfl
    · rfl
    · rfl
    · exact nonNl_of_not_ws (hball c hcb).2.2.2
    · rfl
    · simp at h0
  have hcap : ('[' :: (a ++ (']' :: ',' :: ' ' :: '[' :: (b ++ [']'])))).takeWhile
      (fun d => !(d = '\n' || d = '\r')) =
      '[' :: (a ++ (']' :: ',' :: ' ' :: '[' :: (b ++ [']']))) := takeWhile_total hmem
  have h3 : 0 < (((' ' :: '[' :: (a ++ (']' :: ',' :: ' ' :: '[' ::
      (b ++ [']'])))).dropWhile isWs).takeWhile (fun d => !(d = '\n' || d = '\r'))).length := by
    rw [h2, hcap]
    simp
  rw [scanLAux_cons_match "verified_by" hm h3, h2, hcap]
  have hfb : findBracketIds ('[' :: (a ++ (']' :: ',' :: ' ' :: '[' :: (b ++ [']'])))) =
      [a, b] := by
    unfold findBracketIds
    rw [findBIdsAux_bracket (',' :: ' ' :: '[' :: (b ++ [']'])) hane
      (fun c hc => (haall c hc).2.2.1)]
    rw [findBIdsAux_cons_other _ (by decide), findBIdsAux_cons_other _ (by decide)]
    rw [show ('[' : Char) :: (b ++ [']']) = '[' :: (b ++ (']' :: [])) from rfl]
    rw [findBIdsAux_bracket [] hbne (fun c hc => (hball c hc).2.2.1)]
    rfl
  have hids : idsFromText ('[' :: (a ++ (']' :: ',' :: ' ' :: '[' :: (b ++ [']'])))) =
      [a, b] := by
    unfold idsFromText
    rw [hfb]
    simp only [List.isEmpty_cons, if_neg]
    rw [List.map_cons, List.map_cons, List.map_nil,
      filter_brackets_eq_self (fun c hc => ⟨(haall c hc).2.1, (haall c hc).2.2.1⟩),
      filter_brackets_eq_self (fun c hc => ⟨(hball c hc).2.1, (hball c hc).2.2.1⟩)]
    simp
  rw [hids]
  rw [Nat.sub_self, Nat.sub_zero]
  rw [scanLAux_all]
  rfl

theorem scanB_mitLineNB (a : List Char) (ha : goodId a) :
    scanBracket "**Mitigates:**".toList "mitigates" (mitLineNB a) = [] := by
  obtain ⟨hane, haall⟩ := ha
  unfold scanBracket mitLineNB
  rw [show "**Mitigates:** ".toList ++ a =
      '*' :: ("*Mitigates:**".toList ++ (' ' :: a)) from rfl]
  have hm : tryMarker "**Mitigates:**".toList '*' ("*Mitigates:**".toList ++ (' ' :: a)) =
      some (' ' :: a) := tryMarker_self '*' "*Mitigates:**".toList _
  have h2 : (' ' :: a).dropWhile isWs = a := by
    simp only [List.dropWhile_cons]
    rw [if_pos (by decide)]
    exact dropWhile_isWs_eq_self (fun c hc => (haall c hc).2.2.2)
  have hnil : scanBracketAux "**Mitigates:**".toList "mitigates" 0
      ("*Mitigates:**".toList ++ (' ' :: a)) = [] := by
    rw [show "*Mitigates:**".toList ++ (' ' :: a) = "*Mitigates:** ".toList ++ a from rfl]
    exact scanBracket_nil_of_noStartIn "mitigates"
      (noStartIn_nbshape (by rfl) (by decide) (fun c hc => (haall c hc).1))
  cases a with
  | nil => exact absurd rfl hane
  | cons ah at' =>
    have hd : ah ≠ '[' := (haall ah (List.mem_cons_self ah at')).2.1
    rw [scanBAux_cons_noBracketHead "mitigates" hm h2 hd]
    exact hnil

theorem scanL_verLineNB (a : List Char) (ha : goodId a) :
    scanLine "**Verifies:**".toList "verified_by" (verLineNB a) =
      [⟨"verified_by", String.mk a⟩] := by
  obtain ⟨hane, haall⟩ := ha
  unfold scanLine verLineNB
  rw [show "**Verifies:** ".toList ++ a =
      '*' :: ("*Verifies:**".toList ++ (' ' :: a)) from rfl]
  have hm : tryMarker "**Verifies:**".toList '*' ("*Verifies:**".toList ++ (' ' :: a)) =
      some (' ' :: a) := tryMarker_self '*' "*Verifies:**".toList _
  have h2 : (' ' :: a).dropWhile isWs = a := by
    simp only [List.dropWhile_cons]
    rw [if_pos (by decide)]
    exact dropWhile_isWs_eq_self (fun c hc => (haall c hc).2.2.2)
  have hcap : a.takeWhile (fun d => !(d = '\n' || d = '\r')) = a :=
    takeWhile_total (fun c hc => nonNl_of_not_ws (haall c hc).2.2.2)
  have h3 : 0 < (((' ' :: a).dropWhile isWs).takeWhile
      (fun d => !(d = '\n' || d = '\r'))).length := by
    rw [h2, hcap]
    exact List.length_pos.mpr hane
  rw [scanLAux_cons_match "verified_by" hm h3, h2, hcap, idsFromText_good ⟨hane, haall⟩]
  rw [Nat.sub_self, Nat.sub_zero, scanLAux_all]
  rfl


theorem extractLinks_mitLine2 {doc : Document} {a b : List Char}
    (hbody : doc.body.toList = mitLine2 a b) (ha : goodId a) (hb : goodId b) :
    extractLinks doc = [⟨"mitigates", String.mk a⟩] := by
  have hsa : ∀ c ∈ a, ciEq '*' c = false := fun c hc => (ha.2 c hc).1
  have hsb : ∀ c ∈ b, ciEq '*' c = false := fun c hc => (hb.2 c hc).1
  unfold extractLinks
  rw [hbody]
  dsimp only
  rw [scanB_mitLine2 a b ha hb]
  unfold mitLine2
  rw [scanBracket_nil_of_noStartIn "derives_from"
      (noStartIn_line2shape (by rfl) (by decide) (by decide) (by decide) hsa hsb),
    scanLine_nil_of_noStartIn "verified_by"
      (noStartIn_line2shape (by rfl) (by decide) (by decide) (by decide) hsa hsb),
    scanLine_nil_of_noStartIn "validated_by"
      (noStartIn_line2shape (by rfl) (by decide) (by decide) (by decide) hsa hsb),
    scanBracket_nil_of_noStartIn "implements"
      (noStartIn_line2shape (by rfl) (by decide) (by decide) (by decide) hsa hsb),
    scanBracket_nil_of_noStartIn "analyzes"
      (noStartIn_line2shape (by rfl) (by decide) (by decide) (by decide) hsa hsb),
    scanBracket_nil_of_noStartIn "leads_to"
      (noStartIn_line2shape (by rfl) (by decide) (by decide) (by decide) hsa hsb),
    scanBracket_nil_of_noStartIn "results_in"
      (noStartIn_line2shape (by rfl) (by decide) (by decide) (by decide) hsa hsb)]
  rfl

theorem extractLinks_verLine2 {doc : Document} {a b : List Char}
    (hbody : doc.body.toList = verLine2 a b) (ha : goodId a) (hb : goodId b) :
    extractLinks doc =
      [⟨"verified_by", String.mk a⟩, ⟨"verified_by", String.mk b⟩] := by
  have hsa : ∀ c ∈ a, ciEq '*' c = false := fun c hc => (ha.2 c hc).1
  have hsb : ∀ c ∈ b, ciEq '*' c = false := fun c hc => (hb.2 c hc).1
  unfold extractLinks
  rw [hbody]
  dsimp only
  rw [scanL_verLine2 a b ha hb]
  unfold verLine2
  rw [scanBracket_nil_of_noStartIn "derives_from"
      (noStartIn_line2shape (by rfl) (by decide) (by decide) (by decide) hsa hsb),
    scanLine_nil_of_noStartIn "validated_by"
      (noStartIn_line2shape (by rfl) (by decide) (by decide) (by decide) hsa hsb),
    scanBracket_nil_of_noStartIn "implements"
      (noStartIn_line2shape (by rfl) (by decide) (by decide) (by decide) hsa hsb),
    scanBracket_nil_of_noStartIn "mitigates"
      (noStartIn_line2shape (by rfl) (by decide) (by decide) (by decide) hsa hsb),
    scanBracket_nil_of_noStartIn "analyzes"
      (noStartIn_line2shape (by rfl) (by decide) (by decide) (by decide) hsa hsb),
    scanBracket_nil_of_noStartIn "leads_to"
      (noStartIn_line2shape (by rfl) (by decide) (by decide) (by decide) hsa hsb),
    scanBracket_nil_of_noStartIn "results_in"
      (noStartIn_line2shape (by rfl) (by decide) (by decide) (by decide) hsa hsb)]
  rfl

theorem extractLinks_mitLineNB {doc : Document} {a : List Char}
    (hbody : doc.body.toList = mitLineNB a) (ha : goodId a) :
    extractLinks doc = [] := by
  have hsa : ∀ c ∈ a, ciEq '*' c = false := fun c hc => (ha.2 c hc).1
  unfold extractLinks
  rw [hbody]
  dsimp only
  rw [scanB_mitLineNB a ha]
  unfold mitLineNB
  rw [scanBracket_nil_of_noStartIn "derives_from"
      (noStartIn_nbshape (by rfl) (by decide) hsa),
    scanLine_nil_of_noStartIn "verified_by" (noStartIn_nbshape (by rfl) (by decide) hsa),
    scanLine_nil_of_noStartIn "validated_by" (noStartIn_nbshape (by rfl) (by decide) hsa),
    scanBracket_nil_of_noStartIn "implements" (noStartIn_nbshape (by rfl) (by decide) hsa),
    scanBracket_nil_of_noStartIn "analyzes" (noStartIn_nbshape (by rfl) (by decide) hsa),
    scanBracket_nil_of_noStartIn "leads_to" (noStartIn_nbshape (by rfl) (by decide) hsa),
    scanBracket_nil_of_noStartIn "results_in" (noStartIn_nbshape (by rfl) (by decide) hsa)]
  rfl

theorem extractLinks_verLineNB {doc : Document} {a : List Char}
    (hbody : doc.body.toList = verLineNB a) (ha : goodId a) :
    extractLinks doc = [⟨"verified_by", String.mk a⟩] := by
  have hsa : ∀ c ∈ a, ciEq '*' c = false := fun c hc => (ha.2 c hc).1
  unfold extractLinks
  rw [hbody]
  dsimp only
  rw [scanL_verLineNB a ha]
  unfold verLineNB
  rw [scanBracket_nil_of_noStartIn "derives_from"
      (noStartIn_nbshape (by rfl) (by decide) hsa),
    scanLine_nil_of_noStartIn "validated_by" (noStartIn_nbshape (by rfl) (by decide) hsa),
    scanBracket_nil_of_noStartIn "implements" (noStartIn_nbshape (by rfl) (by decide) hsa),
    scanBracket_nil_of_noStartIn "mitigates" (noStartIn_nbshape (by rfl) (by decide) hsa),
    scanBracket_nil_of_noStartIn "analyzes" (noStartIn_nbshape (by rfl) (by decide) hsa),
    scanBracket_nil_of_noStartIn "leads_to" (noStartIn_nbshape (by rfl) (by decide) hsa),
    scanBracket_nil_of_noStartIn "results_in" (noStartIn_nbshape (by rfl) (by decide) hsa)]
  rfl


/-- C2 counterexample: a `Mitigates` line enumerating two bracketed
identifiers yields one Link (carrying only the first identifier), not
two, and a `Mitigates` line without brackets yields no Link at all
rather than a Link with the trimmed remainder. -/
theorem C2_counterexample :
    extractLinks
        { filePath := "f.md", id := "D-1", title := "t", status := "s", docType := "risk",
          frontmatter := {},
          body := "**Mitigates:** [SRS-001], [SRS-002]" } =
      [{ type := "mitigates", targetId := "SRS-001" }] ∧
    extractLinks
        { filePath := "f.md", id := "D-1", title := "t", status := "s", docType := "risk",
          frontmatter := {},
          body := "**Mitigates:** SRS-001" } = [] := by
  constructor <;> decide

/-- C2 (amended): only the line-style `Verifies`/`Validates` markers
yield one Link per bracketed identifier and fall back to the trimmed
remainder of the line; the six bracket-style markers (exemplified here
by `Mitigates`) yield exactly one Link carrying the first bracketed
identifier and yield nothing when no bracket immediately follows the
marker. -/
theorem C2_amended_extraction (doc : Document) (a b : List Char)
    (ha : goodId a) (hb : goodId b) :
    (doc.body.toList = mitLine2 a b →
      extractLinks doc = [{ type := "mitigates", targetId := String.mk a }]) ∧
    (doc.body.toList = verLine2 a b →
      extractLinks doc = [{ type := "verified_by", targetId := String.mk a },
                          { type := "verified_by", targetId := String.mk b }]) ∧
    (doc.body.toList = mitLineNB a → extractLinks doc = []) ∧
    (doc.body.toList = verLineNB a →
      extractLinks doc = [{ type := "verified_by", targetId := String.mk a }]) :=
  ⟨fun hbody => extractLinks_mitLine2 hbody ha hb,
   fun hbody => extractLinks_verLine2 hbody ha hb,
   fun hbody => extractLinks_mitLineNB hbody ha,
   fun hbody => extractLinks_verLineNB hbody ha⟩

/-- Witness for the hypotheses of `C2_amended_extraction`. -/
theorem C2_amended_extraction_witness :
    extractLinks
        { filePath := "f.md", id := "D-2", title := "t", status := "s", docType := "risk",
          frontmatter := {},
          body := "**Verifies:** [SRS-001], [SRS-002]" } =
      [{ type := "verified_by", targetId := String.mk "SRS-001".toList },
       { type := "verified_by", targetId := String.mk "SRS-002".toList }] ∧
    extractLinks
        { filePath := "f.md", id := "D-3", title := "t", status := "s", docType := "risk",
          frontmatter := {},
          body := "**Verifies:** SRS-001" } =
      [{ type := "verified_by", targetId := String.mk "SRS-001".toList }] := by
  constructor
  · exact (C2_amended_extraction _ "SRS-001".toList "SRS-002".toList
      (by decide) (by decide)).2.1 (by decide)
  · exact (C2_amended_extraction _ "SRS-001".toList "SRS-002".toList
      (by decide) (by decide)).2.2.2 (by decide)


/-- Concrete scenario for the `C10_matrix_invariants` witness. -/
def c10risk : Document :=
  { filePath := "device/risk/RISK-2.md", id := "RISK-2", title := "r2", status := "draft",
    docType := "risk",
    frontmatter := { severity := some 4, probability := some 3,
                     residualSeverity := some 4, residualProbability := some 1 },
    body := "" }

def c10index : DocumentIndex :=
  { byId := [("RISK-2", c10risk)], byPath := [("device/risk/RISK-2.md", c10risk)],
    byType := [("risk", [c10risk])] }

def c10matrix : RiskMatrix :=
  { inherent := incAt (createGrid 5) 2 3, residual := incAt (createGrid 5) 0 3,
    acceptability := DEFAULT_ACCEPTABILITY,
    risks := [mkRiskEntry c10risk
      { severity := 4, probability := 3, residualSeverity := some 4,
        residualProbability := some 1 }],
    summary := { total := 1, acceptable := 1, reviewRequired := 0, unacceptable := 0 } }

/-- Witness for the hypothesis of `C10_matrix_invariants`. -/
theorem C10_matrix_invariants_witness :
    buildRiskMatrix c10index 5 = some c10matrix ∧
    c10matrix.summary.total = c10matrix.risks.length ∧
    gridSum c10matrix.inherent ≤ c10matrix.summary.total :=
  ⟨by decide, (C10_matrix_invariants c10index 5 c10matrix (by decide)).1,
   (C10_matrix_invariants c10index 5 c10matrix (by decide)).2.2.2.2.2.1⟩

end QMS
